import Mathlib

/-!
Kafka protocol versions (`utils.go`)


A shallow embedding of the version model of `utils.go`: the opaque version
value `KafkaVersion`, its ordering `IsAtLeast`, the registry of released
versions, the parser `ParseKafkaVersion` and the formatter `String`; then the
retry policy `NewExponentialBackoff` and the two payload encoders.

Modelling conventions:

* Go's `uint` is 64 bits wide (`uintBits`), and a number that does not fit is a
  range error of the scanner; the cells of a `KafkaVersion` are naturals, and
  `KafkaVersion.InRange` says that they are `uint` values.
* A Go string is a Lean `String`; `len(s)` is its UTF-8 byte count and
  `s[0] == '0'` holds exactly when its first character is `0`.
* A result `(KafkaVersion, error)` is a pair whose second component is the
  error message, `none` for `nil`.
* The patterns are anchored at both ends, so `MatchString` asks whether the
  whole string belongs to the language of the pattern.
* A `time.Duration` is an integer number of nanoseconds with the wrapping
  arithmetic of `int64`; the floating-point jitter step of the backoff is a
  function parameter of each call and is not computed.
-/

namespace Sarama

/-! ## Data model -/

/-- The struct `KafkaVersion` of `utils.go`: the array `version [4]uint` is
kept as its four cells `version[0] .. version[3]`. -/
structure KafkaVersion where
  major : Nat
  minor : Nat
  veryMinor : Nat
  patch : Nat
  deriving DecidableEq

/-- The factory `newKafkaVersion(major, minor, veryMinor, patch)`. -/
def newKafkaVersion (major minor veryMinor patch : Nat) : KafkaVersion :=
  { major := major, minor := minor, veryMinor := veryMinor, patch := patch }

/-- The cells of `v.version` in index order. -/
def KafkaVersion.version (v : KafkaVersion) : List Nat :=
  [v.major, v.minor, v.veryMinor, v.patch]

/-- Width of Go's `uint` on the 64-bit targets. -/
def uintBits : Nat := 64

/-- A version every cell of which is a value of type `uint`. -/
def KafkaVersion.InRange (v : KafkaVersion) : Prop :=
  ∀ x ∈ v.version, x < 2 ^ uintBits

instance (v : KafkaVersion) : Decidable v.InRange :=
  inferInstanceAs (Decidable (∀ x ∈ v.version, x < 2 ^ uintBits))

/-- The body of the loop `for i := range v.version` of `IsAtLeast`, run over
the cells that are still to be visited. -/
def isAtLeastLoop : List Nat → List Nat → Bool
  | a :: as, b :: bs =>
    if a > b then true
    else if a < b then false
    else isAtLeastLoop as bs
  | _, _ => true

/-- The method `IsAtLeast`. -/
def KafkaVersion.IsAtLeast (v other : KafkaVersion) : Bool :=
  isAtLeastLoop v.version other.version

/-- The cells of a version as an element of the lexicographic product
`ℕ ×ₗ ℕ ×ₗ ℕ ×ₗ ℕ`, most significant first. -/
def KafkaVersion.tuple (v : KafkaVersion) : Lex (Nat × Lex (Nat × Lex (Nat × Nat))) :=
  toLex (v.major, toLex (v.minor, toLex (v.veryMinor, v.patch)))

/-! ## Registry of released versions -/

def V0_8_2_0 : KafkaVersion := newKafkaVersion 0 8 2 0
def V0_8_2_1 : KafkaVersion := newKafkaVersion 0 8 2 1
def V0_8_2_2 : KafkaVersion := newKafkaVersion 0 8 2 2
def V0_9_0_0 : KafkaVersion := newKafkaVersion 0 9 0 0
def V0_9_0_1 : KafkaVersion := newKafkaVersion 0 9 0 1
def V0_10_0_0 : KafkaVersion := newKafkaVersion 0 10 0 0
def V0_10_0_1 : KafkaVersion := newKafkaVersion 0 10 0 1
def V0_10_1_0 : KafkaVersion := newKafkaVersion 0 10 1 0
def V0_10_1_1 : KafkaVersion := newKafkaVersion 0 10 1 1
def V0_10_2_0 : KafkaVersion := newKafkaVersion 0 10 2 0
def V0_10_2_1 : KafkaVersion := newKafkaVersion 0 10 2 1
def V0_10_2_2 : KafkaVersion := newKafkaVersion 0 10 2 2
def V0_11_0_0 : KafkaVersion := newKafkaVersion 0 11 0 0
def V0_11_0_1 : KafkaVersion := newKafkaVersion 0 11 0 1
def V0_11_0_2 : KafkaVersion := newKafkaVersion 0 11 0 2
def V1_0_0_0 : KafkaVersion := newKafkaVersion 1 0 0 0
def V1_0_1_0 : KafkaVersion := newKafkaVersion 1 0 1 0
def V1_0_2_0 : KafkaVersion := newKafkaVersion 1 0 2 0
def V1_1_0_0 : KafkaVersion := newKafkaVersion 1 1 0 0
def V1_1_1_0 : KafkaVersion := newKafkaVersion 1 1 1 0
def V2_0_0_0 : KafkaVersion := newKafkaVersion 2 0 0 0
def V2_0_1_0 : KafkaVersion := newKafkaVersion 2 0 1 0
def V2_1_0_0 : KafkaVersion := newKafkaVersion 2 1 0 0
def V2_1_1_0 : KafkaVersion := newKafkaVersion 2 1 1 0
def V2_2_0_0 : KafkaVersion := newKafkaVersion 2 2 0 0
def V2_2_1_0 : KafkaVersion := newKafkaVersion 2 2 1 0
def V2_2_2_0 : KafkaVersion := newKafkaVersion 2 2 2 0
def V2_3_0_0 : KafkaVersion := newKafkaVersion 2 3 0 0
def V2_3_1_0 : KafkaVersion := newKafkaVersion 2 3 1 0
def V2_4_0_0 : KafkaVersion := newKafkaVersion 2 4 0 0
def V2_4_1_0 : KafkaVersion := newKafkaVersion 2 4 1 0
def V2_5_0_0 : KafkaVersion := newKafkaVersion 2 5 0 0
def V2_5_1_0 : KafkaVersion := newKafkaVersion 2 5 1 0
def V2_6_0_0 : KafkaVersion := newKafkaVersion 2 6 0 0
def V2_6_1_0 : KafkaVersion := newKafkaVersion 2 6 1 0
def V2_6_2_0 : KafkaVersion := newKafkaVersion 2 6 2 0
def V2_6_3_0 : KafkaVersion := newKafkaVersion 2 6 3 0
def V2_7_0_0 : KafkaVersion := newKafkaVersion 2 7 0 0
def V2_7_1_0 : KafkaVersion := newKafkaVersion 2 7 1 0
def V2_7_2_0 : KafkaVersion := newKafkaVersion 2 7 2 0
def V2_8_0_0 : KafkaVersion := newKafkaVersion 2 8 0 0
def V2_8_1_0 : KafkaVersion := newKafkaVersion 2 8 1 0
def V2_8_2_0 : KafkaVersion := newKafkaVersion 2 8 2 0
def V3_0_0_0 : KafkaVersion := newKafkaVersion 3 0 0 0
def V3_0_1_0 : KafkaVersion := newKafkaVersion 3 0 1 0
def V3_0_2_0 : KafkaVersion := newKafkaVersion 3 0 2 0
def V3_1_0_0 : KafkaVersion := newKafkaVersion 3 1 0 0
def V3_1_1_0 : KafkaVersion := newKafkaVersion 3 1 1 0
def V3_1_2_0 : KafkaVersion := newKafkaVersion 3 1 2 0
def V3_2_0_0 : KafkaVersion := newKafkaVersion 3 2 0 0
def V3_2_1_0 : KafkaVersion := newKafkaVersion 3 2 1 0
def V3_2_2_0 : KafkaVersion := newKafkaVersion 3 2 2 0
def V3_2_3_0 : KafkaVersion := newKafkaVersion 3 2 3 0
def V3_3_0_0 : KafkaVersion := newKafkaVersion 3 3 0 0
def V3_3_1_0 : KafkaVersion := newKafkaVersion 3 3 1 0
def V3_3_2_0 : KafkaVersion := newKafkaVersion 3 3 2 0
def V3_4_0_0 : KafkaVersion := newKafkaVersion 3 4 0 0
def V3_4_1_0 : KafkaVersion := newKafkaVersion 3 4 1 0
def V3_5_0_0 : KafkaVersion := newKafkaVersion 3 5 0 0
def V3_5_1_0 : KafkaVersion := newKafkaVersion 3 5 1 0
def V3_5_2_0 : KafkaVersion := newKafkaVersion 3 5 2 0
def V3_6_0_0 : KafkaVersion := newKafkaVersion 3 6 0 0
def V3_6_1_0 : KafkaVersion := newKafkaVersion 3 6 1 0
def V3_6_2_0 : KafkaVersion := newKafkaVersion 3 6 2 0
def V3_7_0_0 : KafkaVersion := newKafkaVersion 3 7 0 0
def V3_7_1_0 : KafkaVersion := newKafkaVersion 3 7 1 0
def V3_7_2_0 : KafkaVersion := newKafkaVersion 3 7 2 0
def V3_8_0_0 : KafkaVersion := newKafkaVersion 3 8 0 0
def V3_8_1_0 : KafkaVersion := newKafkaVersion 3 8 1 0
def V3_9_0_0 : KafkaVersion := newKafkaVersion 3 9 0 0
def V4_0_0_0 : KafkaVersion := newKafkaVersion 4 0 0 0

def SupportedVersions : List KafkaVersion :=
  [V0_8_2_0, V0_8_2_1, V0_8_2_2, V0_9_0_0, V0_9_0_1, V0_10_0_0,
   V0_10_0_1, V0_10_1_0, V0_10_1_1, V0_10_2_0, V0_10_2_1, V0_10_2_2,
   V0_11_0_0, V0_11_0_1, V0_11_0_2, V1_0_0_0, V1_0_1_0, V1_0_2_0,
   V1_1_0_0, V1_1_1_0, V2_0_0_0, V2_0_1_0, V2_1_0_0, V2_1_1_0,
   V2_2_0_0, V2_2_1_0, V2_2_2_0, V2_3_0_0, V2_3_1_0, V2_4_0_0,
   V2_4_1_0, V2_5_0_0, V2_5_1_0, V2_6_0_0, V2_6_1_0, V2_6_2_0,
   V2_6_3_0, V2_7_0_0, V2_7_1_0, V2_7_2_0, V2_8_0_0, V2_8_1_0,
   V2_8_2_0, V3_0_0_0, V3_0_1_0, V3_0_2_0, V3_1_0_0, V3_1_1_0,
   V3_1_2_0, V3_2_0_0, V3_2_1_0, V3_2_2_0, V3_2_3_0, V3_3_0_0,
   V3_3_1_0, V3_3_2_0, V3_4_0_0, V3_4_1_0, V3_5_0_0, V3_5_1_0,
   V3_5_2_0, V3_6_0_0, V3_6_1_0, V3_6_2_0, V3_7_0_0, V3_7_1_0,
   V3_7_2_0, V3_8_0_0, V3_8_1_0, V3_9_0_0, V4_0_0_0]

def MinVersion : KafkaVersion := V0_8_2_0
def MaxVersion : KafkaVersion := V4_0_0_0
def DefaultVersion : KafkaVersion := V2_1_0_0

/-- Strictly older: `b` is at least `a` and `a` is not at least `b`. -/
def KafkaVersion.Older (a b : KafkaVersion) : Prop :=
  b.IsAtLeast a = true ∧ a.IsAtLeast b = false

instance (a b : KafkaVersion) : Decidable (a.Older b) :=
  inferInstanceAs (Decidable (b.IsAtLeast a = true ∧ a.IsAtLeast b = false))

/-! ## Regular expressions

The two patterns of `utils.go` are built from literals, the class `\d`,
concatenation and `+`.  `MatchString` is decided with Brzozowski derivatives;
`Regex.Matches` is the language a pattern denotes. -/

/-- Regular expressions over characters. -/
inductive Regex where
  | none : Regex
  | eps : Regex
  | lit (c : Char) : Regex
  | digit : Regex
  | alt (r s : Regex) : Regex
  | seq (r s : Regex) : Regex
  | star (r : Regex) : Regex

/-- The repetition `r+`. -/
def Regex.plus (r : Regex) : Regex := .seq r (.star r)

/-- Whether the pattern accepts the empty string. -/
def Regex.nullable : Regex → Bool
  | .none => false
  | .eps => true
  | .lit _ => false
  | .digit => false
  | .alt r s => r.nullable || s.nullable
  | .seq r s => r.nullable && s.nullable
  | .star _ => true

/-- The class `\d` of Go's `regexp`: the ASCII digits `0` to `9`. -/
def isDigit (c : Char) : Bool := 48 ≤ c.toNat && c.toNat ≤ 57

/-- The derivative of a pattern by one character. -/
def Regex.deriv : Regex → Char → Regex
  | .none, _ => .none
  | .eps, _ => .none
  | .lit c, a => if a = c then .eps else .none
  | .digit, a => if isDigit a then .eps else .none
  | .alt r s, a => .alt (r.deriv a) (s.deriv a)
  | .seq r s, a =>
    if r.nullable then .alt (.seq (r.deriv a) s) (s.deriv a) else .seq (r.deriv a) s
  | .star r, a => .seq (r.deriv a) (.star r)

/-- A pattern anchored at both ends (`^ ... $`) matches a string when the whole
string is in its language. -/
def Regex.MatchString (r : Regex) (s : String) : Bool :=
  (s.data.foldl Regex.deriv r).nullable

/-- The language of a pattern. -/
inductive Regex.Matches : Regex → List Char → Prop
  | eps : Matches .eps []
  | lit (c : Char) : Matches (.lit c) [c]
  | digit (c : Char) : isDigit c = true → Matches .digit [c]
  | altLeft {r s : Regex} {w : List Char} : Matches r w → Matches (.alt r s) w
  | altRight {r s : Regex} {w : List Char} : Matches s w → Matches (.alt r s) w
  | seq {r s : Regex} {u v : List Char} :
      Matches r u → Matches s v → Matches (.seq r s) (u ++ v)
  | starNil {r : Regex} : Matches (.star r) []
  | starCons {r : Regex} {u v : List Char} :
      Matches r u → Matches (.star r) v → Matches (.star r) (u ++ v)

/-- The pattern `^0\.\d+\.\d+\.\d+$` for the pre-1.0 version strings. -/
def validPreKafka1Version : Regex :=
  .seq (.lit '0') (.seq (.lit '.') (.seq (Regex.plus .digit) (.seq (.lit '.')
    (.seq (Regex.plus .digit) (.seq (.lit '.') (Regex.plus .digit))))))

/-- The pattern `^\d+\.\d+\.\d+$` for the post-1.0 version strings. -/
def validPostKafka1Version : Regex :=
  .seq (Regex.plus .digit) (.seq (.lit '.') (.seq (Regex.plus .digit)
    (.seq (.lit '.') (Regex.plus .digit))))

/-- A non-empty string of ASCII digits. -/
def IsDigits (w : List Char) : Prop := w ≠ [] ∧ ∀ c ∈ w, isDigit c = true

instance (w : List Char) : Decidable (IsDigits w) :=
  inferInstanceAs (Decidable (w ≠ [] ∧ ∀ c ∈ w, isDigit c = true))

/-! ## Scanning and formatting (`fmt`)

`fmt.Sscanf` and `fmt.Sprintf` for the formats of `utils.go`: literal
characters and the verb `%d`, every operand a `uint` (one per verb). -/

/-- The number `strconv.ParseUint(tok, 10, 64)` reads from a string of
digits, before the range check. -/
def decimalValue (tok : List Char) : Nat :=
  tok.foldl (fun n c => n * 10 + (c.toNat - 48)) 0

/-- The message of the `*strconv.NumError` for a token that exceeds `uint`. -/
def rangeError (tok : List Char) : String :=
  "strconv.ParseUint: parsing \"" ++ String.mk tok ++ "\": value out of range"

/-- The scanner `fmt.Sscanf(input, format, ...)` on an input of digits and dots:
the values stored through the operands so far, in order, and the error.  A
literal of the format must be next in the input; `%d` reads the longest run of
digits, which must not be empty and must fit in a `uint`. -/
def Sscanf : (format : List Char) → (input : List Char) → List Nat × Option String
  | [], _ => ([], none)
  | '%' :: 'd' :: format, input =>
    let tok := input.takeWhile isDigit
    if input = [] then ([], some "unexpected EOF")
    else if tok = [] then ([], some "expected integer")
    else if 2 ^ uintBits ≤ decimalValue tok then ([], some (rangeError tok))
    else
      let r := Sscanf format (input.dropWhile isDigit)
      (decimalValue tok :: r.1, r.2)
  | c :: format, input =>
    match input with
    | [] => ([], some "unexpected EOF")
    | d :: input =>
      if d = c then Sscanf format input else ([], some "input does not match format")

/-- The loop of `fmtInteger` for base 10: digits are written in front of `buf`,
least significant first. -/
def fmtIntegerLoop : (fuel : Nat) → (u : Nat) → (buf : List Char) → List Char
  | 0, u, buf => Char.ofNat (48 + u) :: buf
  | fuel + 1, u, buf =>
    if u ≥ 10 then
      let next := u / 10
      fmtIntegerLoop fuel next (Char.ofNat (48 + u - next * 10) :: buf)
    else Char.ofNat (48 + u) :: buf

/-- The verb `%d` applied to a `uint`. -/
def fmtUint (u : Nat) : List Char := fmtIntegerLoop u u []

/-- What `Sprintf` appends for operands the format has no verb for. -/
def sprintfExtra (args : List Nat) : List Char :=
  "%!(EXTRA ".data ++
    (", ".data).intercalate (args.map fun a => "uint=".data ++ fmtUint a) ++ ")".data

/-- The formatter `fmt.Sprintf(format, args...)`. -/
def sprintfLoop : (format : List Char) → (args : List Nat) → List Char
  | [], [] => []
  | [], a :: args => sprintfExtra (a :: args)
  | '%' :: 'd' :: format, a :: args => fmtUint a ++ sprintfLoop format args
  | '%' :: 'd' :: format, [] => "%!d(MISSING)".data ++ sprintfLoop format []
  | c :: format, args => c :: sprintfLoop format args

def Sprintf (format : String) (args : List Nat) : String :=
  String.mk (sprintfLoop format.data args)

/-! ## Parsing and formatting versions -/

/-- The error `fmt.Errorf("invalid version %s", s)`, the operand between
backquotes. -/
def invalidVersion (s : String) : String := "invalid version `" ++ s ++ "`"

/-- Storing the scanned values through the pointers `v[0]`, `v[1]`, `v[2]`. -/
def storeCells : List Nat → Nat × Nat × Nat → Nat × Nat × Nat
  | [], v => v
  | [a], v => (a, v.2.1, v.2.2)
  | [a, b], v => (a, b, v.2.2)
  | a :: b :: c :: _, _ => (a, b, c)

/-- The function `scanKafkaVersion(s, pattern, format, v)`: the error, and the
contents of the three cells `v` points to when it returns. -/
def scanKafkaVersion (s : String) (pattern : Regex) (format : String)
    (v : Nat × Nat × Nat) : Option String × (Nat × Nat × Nat) :=
  if !pattern.MatchString s then (some (invalidVersion s), v)
  else
    let r := Sscanf format.data s.data
    (r.2, storeCells r.1 v)

/-- The function `ParseKafkaVersion(s)`: the version and the error (`none` for
`nil`).  The first byte of `s` is `'0'` exactly when its first character is. -/
def ParseKafkaVersion (s : String) : KafkaVersion × Option String :=
  if s.utf8ByteSize < 5 then (DefaultVersion, some (invalidVersion s))
  else
    if s.data.head? = some '0' then
      match scanKafkaVersion s validPreKafka1Version "0.%d.%d.%d" (0, 0, 0) with
      | (some err, _) => (DefaultVersion, some err)
      | (none, (minor, veryMinor, patch)) => (newKafkaVersion 0 minor veryMinor patch, none)
    else
      match scanKafkaVersion s validPostKafka1Version "%d.%d.%d" (0, 0, 0) with
      | (some err, _) => (DefaultVersion, some err)
      | (none, (major, minor, veryMinor)) => (newKafkaVersion major minor veryMinor 0, none)

/-- The method `String`. -/
def KafkaVersion.String (v : KafkaVersion) : String :=
  if v.major = 0 then Sprintf "0.%d.%d.%d" [v.minor, v.veryMinor, v.patch]
  else Sprintf "%d.%d.%d" [v.major, v.minor, v.veryMinor]

/-! ## The two textual forms, as the specification words them -/

/-- The string `s` is of the pre-1.0 form `0.<minor>.<patchFamily>.<patch>` with
the three components `a`, `b`, `c`, each a non-empty string of ASCII digits. -/
def PreKafka1Parts (s a b c : String) : Prop :=
  IsDigits a.data ∧ IsDigits b.data ∧ IsDigits c.data ∧ s = "0." ++ a ++ "." ++ b ++ "." ++ c

instance (s a b c : String) : Decidable (PreKafka1Parts s a b c) :=
  inferInstanceAs (Decidable (IsDigits a.data ∧ IsDigits b.data ∧ IsDigits c.data ∧
    s = "0." ++ a ++ "." ++ b ++ "." ++ c))

/-- The string `s` is of the post-1.0 form `<major>.<minor>.<patchFamily>` with
the three components `a`, `b`, `c`, each a non-empty string of ASCII digits. -/
def PostKafka1Parts (s a b c : String) : Prop :=
  IsDigits a.data ∧ IsDigits b.data ∧ IsDigits c.data ∧ s = a ++ "." ++ b ++ "." ++ c

instance (s a b c : String) : Decidable (PostKafka1Parts s a b c) :=
  inferInstanceAs (Decidable (IsDigits a.data ∧ IsDigits b.data ∧ IsDigits c.data ∧
    s = a ++ "." ++ b ++ "." ++ c))

/-- The decimal value of a digit string. -/
def decimal (a : String) : Nat := decimalValue a.data

/-- The digit string denotes a value of type `uint`. -/
def FitsUint (a : String) : Prop := decimal a < 2 ^ uintBits

instance (a : String) : Decidable (FitsUint a) :=
  inferInstanceAs (Decidable (decimal a < 2 ^ uintBits))

/-- A numeric component without superfluous leading zeros: it is `0` itself or
does not start with `0`. -/
def Canonical (a : String) : Prop := a = "0" ∨ a.data.head? ≠ some '0'

instance (a : String) : Decidable (Canonical a) :=
  inferInstanceAs (Decidable (a = "0" ∨ a.data.head? ≠ some '0'))

/-! ## Retry backoff (`NewExponentialBackoff`)

A `time.Duration` is an `int64` count of nanoseconds, here an integer, and the
arithmetic on it wraps (`wrapInt64`).  The jitter step
`time.Duration(float64(calculatedBackoff) * jitter)`, with `jitter` drawn anew
in every call, is floating-point arithmetic and is not computed here: each call
takes it as a function `applyJitter` of the integer it is applied to. -/

/-- The constant `time.Millisecond`, in nanoseconds. -/
def Millisecond : Int := 1000000

def defaultRetryBackoff : Int := 100 * Millisecond

def defaultRetryMaxBackoff : Int := 1000 * Millisecond

/-- The value an `int64` holds after an operation whose exact result is `x`
(two's complement). -/
def wrapInt64 (x : Int) : Int := (x + 2 ^ 63) % 2 ^ 64 - 2 ^ 63

/-- The expression `time.Duration(1 << k)` for a shift count `k ≥ 0`: the
constant `1` is an `int64`, and a shift by 64 or more leaves `0`. -/
def shiftOne (k : Int) : Int :=
  if k < 64 then wrapInt64 (2 ^ k.toNat) else 0

/-- The constructor `NewExponentialBackoff(backoff, maxBackoff)`; the function it
returns is applied to `retries`, `maxRetries` and the jitter step of the call.
The warning it logs when `backoff > maxBackoff` is not part of the result. -/
def NewExponentialBackoff (backoff maxBackoff : Int) :
    (retries maxRetries : Int) → (applyJitter : Int → Int) → Int :=
  let backoff := if backoff ≤ 0 then defaultRetryBackoff else backoff
  let maxBackoff := if maxBackoff ≤ 0 then defaultRetryMaxBackoff else maxBackoff
  let backoff := if backoff > maxBackoff then maxBackoff else backoff
  fun retries _ applyJitter =>
    if retries ≤ 0 then backoff
    else
      let calculatedBackoff := wrapInt64 (backoff * shiftOne (retries - 1))
      let calculatedBackoff := applyJitter calculatedBackoff
      min calculatedBackoff maxBackoff

/-! ## Encoders -/

/-- The type `StringEncoder`, a Go string. -/
abbrev StringEncoder := String

/-- The type `ByteEncoder`, a byte slice. -/
abbrev ByteEncoder := ByteArray

/-- The method `Encode` of `StringEncoder`: the conversion `[]byte(s)` and a
`nil` error. -/
def StringEncoder.Encode (s : StringEncoder) : ByteArray × Option String :=
  (s.toUTF8, none)

/-- The method `Length` of `StringEncoder`: `len(s)`. -/
def StringEncoder.Length (s : StringEncoder) : Nat := s.utf8ByteSize

/-- The method `Encode` of `ByteEncoder`. -/
def ByteEncoder.Encode (b : ByteEncoder) : ByteArray × Option String := (b, none)

/-- The method `Length` of `ByteEncoder`: `len(b)`. -/
def ByteEncoder.Length (b : ByteEncoder) : Nat := b.size

/-! # Theorems -/

/-! ## Ordering -/

/-- Shared form of the comparison: `IsAtLeast` spelled out on the cells. -/
theorem isAtLeast_iff_cells (v other : KafkaVersion) :
    v.IsAtLeast other = true ↔
      other.major < v.major ∨ other.major = v.major ∧
        (other.minor < v.minor ∨ other.minor = v.minor ∧
          (other.veryMinor < v.veryMinor ∨ other.veryMinor = v.veryMinor ∧
            other.patch ≤ v.patch)) := by
  obtain ⟨a0, a1, a2, a3⟩ := v
  obtain ⟨b0, b1, b2, b3⟩ := other
  simp only [KafkaVersion.IsAtLeast, KafkaVersion.version, isAtLeastLoop]
  split_ifs <;> simp <;> omega

theorem isAtLeast_eq_false_iff (v other : KafkaVersion) :
    v.IsAtLeast other = false ↔ ¬ (v.IsAtLeast other = true) := by
  simp

/-- C1: `v.IsAtLeast(other)` is true exactly when the tuple
(major, minor, patchFamily, patch) of `v` is lexicographically greater than or
equal to that of `other`, most significant component first. -/
theorem isAtLeast_iff_lex_ge (v other : KafkaVersion) :
    v.IsAtLeast other = true ↔ other.tuple ≤ v.tuple := by
  rw [isAtLeast_iff_cells]
  simp only [KafkaVersion.tuple, Prod.Lex.le_iff]

/-- C2: equal versions are at least each other, and of two different versions
exactly one is at least the other. -/
theorem isAtLeast_total_antisymm (a b : KafkaVersion) :
    (a = b → a.IsAtLeast b = true ∧ b.IsAtLeast a = true) ∧
    (a ≠ b → (a.IsAtLeast b = true ∧ b.IsAtLeast a = false) ∨
             (a.IsAtLeast b = false ∧ b.IsAtLeast a = true)) := by
  simp only [isAtLeast_eq_false_iff, isAtLeast_iff_cells]
  obtain ⟨a0, a1, a2, a3⟩ := a
  obtain ⟨b0, b1, b2, b3⟩ := b
  simp only [KafkaVersion.mk.injEq, ne_eq]
  constructor
  · rintro ⟨rfl, rfl, rfl, rfl⟩
    simp
  · intro h
    omega

theorem isAtLeast_total_antisymm_witness :
    (V2_1_0_0 = DefaultVersion →
      V2_1_0_0.IsAtLeast DefaultVersion = true ∧ DefaultVersion.IsAtLeast V2_1_0_0 = true) ∧
    (V0_11_0_2 ≠ V1_0_0_0 →
      (V0_11_0_2.IsAtLeast V1_0_0_0 = true ∧ V1_0_0_0.IsAtLeast V0_11_0_2 = false) ∨
      (V0_11_0_2.IsAtLeast V1_0_0_0 = false ∧ V1_0_0_0.IsAtLeast V0_11_0_2 = true)) :=
  ⟨(isAtLeast_total_antisymm V2_1_0_0 DefaultVersion).1,
   (isAtLeast_total_antisymm V0_11_0_2 V1_0_0_0).2⟩

theorem older_trans {a b c : KafkaVersion} (hab : a.Older b) (hbc : b.Older c) : a.Older c := by
  unfold KafkaVersion.Older at *
  simp only [isAtLeast_eq_false_iff, isAtLeast_iff_cells] at *
  omega

theorem isAtLeast_trans {a b c : KafkaVersion} (hab : a.IsAtLeast b = true)
    (hbc : b.IsAtLeast c = true) : a.IsAtLeast c = true := by
  simp only [isAtLeast_iff_cells] at *
  omega

/-! ## Registry -/

set_option maxRecDepth 100000 in
theorem supportedVersions_pairwise : List.Pairwise KafkaVersion.Older SupportedVersions := by
  decide

/-- C10: `SupportedVersions` is strictly ascending (for `i < j` the later entry
is at least the earlier one and not conversely), `MinVersion` is its first and
`MaxVersion` its last entry, every supported version lies between the two, and
`DefaultVersion` is a member. -/
theorem supportedVersions_ordered :
    (∀ (i j : Fin SupportedVersions.length), i < j →
      (SupportedVersions.get j).IsAtLeast (SupportedVersions.get i) = true ∧
      (SupportedVersions.get i).IsAtLeast (SupportedVersions.get j) = false) ∧
    SupportedVersions.head? = some MinVersion ∧
    SupportedVersions.getLast? = some MaxVersion ∧
    (∀ v ∈ SupportedVersions, v.IsAtLeast MinVersion = true ∧ MaxVersion.IsAtLeast v = true) ∧
    DefaultVersion ∈ SupportedVersions := by
  refine ⟨?_, by decide, by decide, by decide, by decide⟩
  intro i j hij
  exact List.pairwise_iff_get.mp supportedVersions_pairwise i j hij

theorem supportedVersions_ordered_witness :
    (V1_0_0_0.IsAtLeast V0_11_0_2 = true ∧ V0_11_0_2.IsAtLeast V1_0_0_0 = false) ∧
    (V2_8_1_0.IsAtLeast MinVersion = true ∧ MaxVersion.IsAtLeast V2_8_1_0 = true) :=
  ⟨supportedVersions_ordered.1 ⟨14, by decide⟩ ⟨15, by decide⟩ (by decide),
   supportedVersions_ordered.2.2.2.1 V2_8_1_0 (by decide)⟩

/-! ## Regular expression matching -/

theorem nullable_iff (r : Regex) : r.nullable = true ↔ r.Matches [] := by
  induction r with
  | none => simp only [Regex.nullable]; constructor
            · intro h; cases h
            · intro h; cases h
  | eps => exact ⟨fun _ => .eps, fun _ => rfl⟩
  | lit c => simp only [Regex.nullable]; constructor
             · intro h; cases h
             · intro h; cases h
  | digit => simp only [Regex.nullable]; constructor
             · intro h; cases h
             · intro h; cases h
  | alt r s ihr ihs =>
    simp only [Regex.nullable, Bool.or_eq_true, ihr, ihs]
    constructor
    · rintro (h | h)
      · exact .altLeft h
      · exact .altRight h
    · intro h
      cases h with
      | altLeft h => exact Or.inl h
      | altRight h => exact Or.inr h
  | seq r s ihr ihs =>
    simp only [Regex.nullable, Bool.and_eq_true, ihr, ihs]
    constructor
    · rintro ⟨h1, h2⟩
      exact Regex.Matches.seq h1 h2
    · intro h
      generalize hw : ([] : List Char) = w at h
      cases h with
      | seq h1 h2 =>
        obtain ⟨rfl, rfl⟩ := List.append_eq_nil.mp hw.symm
        exact ⟨h1, h2⟩
  | star r _ => exact ⟨fun _ => .starNil, fun _ => rfl⟩

theorem matches_none_iff (w : List Char) : Regex.none.Matches w ↔ False :=
  ⟨fun h => (by cases h), False.elim⟩

theorem matches_eps_iff (w : List Char) : Regex.eps.Matches w ↔ w = [] :=
  ⟨fun h => (by cases h; rfl), fun h => h ▸ .eps⟩

theorem matches_lit_iff (c : Char) (w : List Char) : (Regex.lit c).Matches w ↔ w = [c] :=
  ⟨fun h => (by cases h; rfl), fun h => h ▸ .lit c⟩

theorem matches_digit_iff (w : List Char) :
    Regex.digit.Matches w ↔ ∃ c, isDigit c = true ∧ w = [c] := by
  constructor
  · intro h
    cases h with
    | digit c hc => exact ⟨c, hc, rfl⟩
  · rintro ⟨c, hc, rfl⟩
    exact .digit c hc

theorem matches_alt_iff (r s : Regex) (w : List Char) :
    (Regex.alt r s).Matches w ↔ r.Matches w ∨ s.Matches w := by
  constructor
  · intro h
    cases h with
    | altLeft h => exact Or.inl h
    | altRight h => exact Or.inr h
  · rintro (h | h)
    · exact .altLeft h
    · exact .altRight h

theorem matches_seq_iff (r s : Regex) (w : List Char) :
    (Regex.seq r s).Matches w ↔ ∃ u v, w = u ++ v ∧ r.Matches u ∧ s.Matches v := by
  constructor
  · intro h
    cases h with
    | seq h1 h2 => exact ⟨_, _, rfl, h1, h2⟩
  · rintro ⟨u, v, rfl, h1, h2⟩
    exact .seq h1 h2

theorem matches_star_cons {r : Regex} {a : Char} {w : List Char}
    (h : (Regex.star r).Matches (a :: w)) :
    ∃ u v, w = u ++ v ∧ r.Matches (a :: u) ∧ (Regex.star r).Matches v := by
  generalize hx : Regex.star r = x at h
  generalize hy : a :: w = y at h
  induction h generalizing w with
  | eps => cases hx
  | lit c => cases hx
  | digit c hc => cases hx
  | altLeft _ _ => cases hx
  | altRight _ _ => cases hx
  | seq _ _ _ _ => cases hx
  | starNil => cases hy
  | @starCons r1 u v h1 h2 _ ih2 =>
    cases hx
    cases u with
    | nil => exact ih2 rfl hy
    | cons b u1 =>
      simp only [List.cons_append, List.cons.injEq] at hy
      obtain ⟨rfl, rfl⟩ := hy
      exact ⟨u1, v, rfl, h1, h2⟩

theorem matches_deriv_iff (r : Regex) (a : Char) (w : List Char) :
    (r.deriv a).Matches w ↔ r.Matches (a :: w) := by
  induction r generalizing w with
  | none => simp [Regex.deriv, matches_none_iff]
  | eps => simp [Regex.deriv, matches_none_iff, matches_eps_iff]
  | lit c =>
    simp only [Regex.deriv, matches_lit_iff]
    split_ifs with h
    · subst h; simp [matches_eps_iff]
    · simp [matches_none_iff, h]
  | digit =>
    simp only [Regex.deriv, matches_digit_iff]
    split_ifs with h
    · simp only [matches_eps_iff, List.cons.injEq]
      exact ⟨fun hw => ⟨a, h, rfl, hw⟩, fun ⟨_, _, _, hw⟩ => hw⟩
    · simp only [matches_none_iff, false_iff]
      rintro ⟨c, hc, he⟩
      simp only [List.cons.injEq] at he
      obtain ⟨rfl, _⟩ := he
      exact h hc
  | alt r s ihr ihs => simp only [Regex.deriv, matches_alt_iff, ihr, ihs]
  | seq r s ihr ihs =>
    have key : (Regex.seq r s).Matches (a :: w) ↔
        (∃ u v, w = u ++ v ∧ r.Matches (a :: u) ∧ s.Matches v) ∨
          (r.Matches [] ∧ s.Matches (a :: w)) := by
      rw [matches_seq_iff]
      constructor
      · rintro ⟨u, v, huv, h1, h2⟩
        cases u with
        | nil => right; simp only [List.nil_append] at huv; subst huv; exact ⟨h1, h2⟩
        | cons b u1 =>
          simp only [List.cons_append, List.cons.injEq] at huv
          obtain ⟨rfl, rfl⟩ := huv
          exact Or.inl ⟨u1, v, rfl, h1, h2⟩
      · rintro (⟨u, v, rfl, h1, h2⟩ | ⟨h1, h2⟩)
        · exact ⟨a :: u, v, rfl, h1, h2⟩
        · exact ⟨[], a :: w, rfl, h1, h2⟩
    rw [key]
    simp only [Regex.deriv]
    split_ifs with hn
    · simp only [matches_alt_iff, matches_seq_iff, ihr, ihs, (nullable_iff r).mp hn, true_and]
    · have : ¬ r.Matches [] := fun h => hn ((nullable_iff r).mpr h)
      simp only [matches_seq_iff, ihr, this, false_and, or_false]
  | star r ih =>
    simp only [Regex.deriv, matches_seq_iff, ih]
    constructor
    · rintro ⟨u, v, rfl, h1, h2⟩
      exact Regex.Matches.starCons h1 h2
    · exact matches_star_cons

theorem foldl_deriv_nullable_iff (w : List Char) (r : Regex) :
    (w.foldl Regex.deriv r).nullable = true ↔ r.Matches w := by
  induction w generalizing r with
  | nil => exact nullable_iff r
  | cons a w ih => rw [List.foldl_cons, ih, matches_deriv_iff]

/-- The matcher decides the language of the pattern. -/
theorem matchString_iff (r : Regex) (s : String) :
    r.MatchString s = true ↔ r.Matches s.data :=
  foldl_deriv_nullable_iff s.data r

theorem matches_star_digit_iff (w : List Char) :
    (Regex.star .digit).Matches w ↔ ∀ c ∈ w, isDigit c = true := by
  induction w with
  | nil => simp only [List.not_mem_nil, false_implies, implies_true, iff_true]
           exact .starNil
  | cons a w ih =>
    rw [← matches_deriv_iff]
    simp only [Regex.deriv, matches_seq_iff, List.mem_cons, forall_eq_or_imp]
    by_cases ha : isDigit a = true
    · simp only [ha, if_true, matches_eps_iff, true_and]
      constructor
      · rintro ⟨u, v, rfl, rfl, h⟩
        exact ih.mp h
      · intro h
        exact ⟨[], w, rfl, rfl, ih.mpr h⟩
    · simp only [ha, Bool.false_eq_true, if_false, matches_none_iff, false_and, and_false,
        exists_false]

theorem matches_plus_digit_iff (w : List Char) :
    (Regex.plus .digit).Matches w ↔ IsDigits w := by
  simp only [Regex.plus, matches_seq_iff, matches_digit_iff, matches_star_digit_iff, IsDigits]
  constructor
  · rintro ⟨u, v, rfl, ⟨c, hc, rfl⟩, hv⟩
    refine ⟨by simp, ?_⟩
    intro d hd
    simp only [List.singleton_append, List.mem_cons] at hd
    rcases hd with rfl | hd
    · exact hc
    · exact hv d hd
  · rintro ⟨hne, hw⟩
    cases w with
    | nil => exact absurd rfl hne
    | cons a w =>
      exact ⟨[a], w, rfl, ⟨a, hw a (List.mem_cons_self _ _), rfl⟩,
        fun c hc => hw c (List.mem_cons_of_mem _ hc)⟩

theorem matches_pre_iff (w : List Char) :
    validPreKafka1Version.Matches w ↔
      ∃ a b c, IsDigits a ∧ IsDigits b ∧ IsDigits c ∧
        w = '0' :: '.' :: (a ++ '.' :: (b ++ '.' :: c)) := by
  simp only [validPreKafka1Version, matches_seq_iff, matches_lit_iff, matches_plus_digit_iff]
  constructor
  · rintro ⟨_, _, rfl, rfl, _, _, rfl, rfl, a, _, rfl, ha, _, _, rfl, rfl, b, _, rfl, hb,
      _, c, rfl, rfl, hc⟩
    exact ⟨a, b, c, ha, hb, hc, by simp⟩
  · rintro ⟨a, b, c, ha, hb, hc, rfl⟩
    exact ⟨_, _, rfl, rfl, _, _, rfl, rfl, a, _, rfl, ha, _, _, rfl, rfl, b, _, rfl, hb,
      _, c, rfl, rfl, hc⟩

theorem matches_post_iff (w : List Char) :
    validPostKafka1Version.Matches w ↔
      ∃ a b c, IsDigits a ∧ IsDigits b ∧ IsDigits c ∧ w = a ++ '.' :: (b ++ '.' :: c) := by
  simp only [validPostKafka1Version, matches_seq_iff, matches_lit_iff, matches_plus_digit_iff]
  constructor
  · rintro ⟨a, _, rfl, ha, _, _, rfl, rfl, b, _, rfl, hb, _, c, rfl, rfl, hc⟩
    exact ⟨a, b, c, ha, hb, hc, by simp⟩
  · rintro ⟨a, b, c, ha, hb, hc, rfl⟩
    exact ⟨a, _, rfl, ha, _, _, rfl, rfl, b, _, rfl, hb, _, c, rfl, rfl, hc⟩

/-! ## Scanning -/

theorem isDigit_dot : isDigit '.' = false := by decide

theorem takeWhile_digits_append (a rest : List Char) (ha : ∀ c ∈ a, isDigit c = true)
    (hr : ∀ c ∈ rest.head?, isDigit c = false) :
    (a ++ rest).takeWhile isDigit = a ∧ (a ++ rest).dropWhile isDigit = rest := by
  induction a with
  | nil =>
    cases rest with
    | nil => simp
    | cons d rest =>
      have hd : isDigit d = false := hr d (by simp)
      simp [List.takeWhile, List.dropWhile, hd]
  | cons x a ih =>
    have hx : isDigit x = true := ha x (List.mem_cons_self _ _)
    have := ih (fun c hc => ha c (List.mem_cons_of_mem _ hc))
    simp [List.takeWhile, List.dropWhile, hx, this.1, this.2]

theorem sscanf_verb (format a rest : List Char) (ha : IsDigits a)
    (hr : ∀ c ∈ rest.head?, isDigit c = false) :
    Sscanf ('%' :: 'd' :: format) (a ++ rest) =
      if 2 ^ uintBits ≤ decimalValue a then ([], some (rangeError a))
      else (decimalValue a :: (Sscanf format rest).1, (Sscanf format rest).2) := by
  obtain ⟨hne, hd⟩ := ha
  have htd := takeWhile_digits_append a rest hd hr
  have hne2 : a ++ rest ≠ [] := by simp [hne]
  rw [Sscanf]
  simp only [htd.1, htd.2, hne, hne2, if_false]

theorem sscanf_lit (c : Char) (hc : c ≠ '%') (format input : List Char) :
    Sscanf (c :: format) (c :: input) = Sscanf format input := by
  rw [Sscanf]
  · simp
  · intro f hf _
    exact hc hf

theorem sscanf_pre (a b c : List Char) (ha : IsDigits a) (hb : IsDigits b) (hc : IsDigits c) :
    Sscanf "0.%d.%d.%d".data ('0' :: '.' :: (a ++ '.' :: (b ++ '.' :: c))) =
      if 2 ^ uintBits ≤ decimalValue a then ([], some (rangeError a))
      else if 2 ^ uintBits ≤ decimalValue b then ([decimalValue a], some (rangeError b))
      else if 2 ^ uintBits ≤ decimalValue c then
        ([decimalValue a, decimalValue b], some (rangeError c))
      else ([decimalValue a, decimalValue b, decimalValue c], none) := by
  have hdot : ∀ (x : List Char), ∀ d ∈ ('.' :: x).head?, isDigit d = false := by
    intro x d hd
    simp only [List.head?_cons, Option.mem_def, Option.some.injEq] at hd
    subst hd
    exact isDigit_dot
  have hnil : ∀ d ∈ ([] : List Char).head?, isDigit d = false := by simp
  have hc2 := sscanf_verb [] c [] hc hnil
  rw [List.append_nil] at hc2
  have h0 : ('0' : Char) ≠ '%' := by decide
  have h1 : ('.' : Char) ≠ '%' := by decide
  have hend : ∀ x, Sscanf [] x = ([], none) := fun x => by rw [Sscanf]
  show Sscanf ['0', '.', '%', 'd', '.', '%', 'd', '.', '%', 'd'] _ = _
  rw [sscanf_lit _ h0, sscanf_lit _ h1, sscanf_verb _ a _ ha (hdot _)]
  rw [sscanf_lit _ h1, sscanf_verb _ b _ hb (hdot _), sscanf_lit _ h1, hc2, hend]
  split_ifs <;> rfl

theorem sscanf_post (a b c : List Char) (ha : IsDigits a) (hb : IsDigits b) (hc : IsDigits c) :
    Sscanf "%d.%d.%d".data (a ++ '.' :: (b ++ '.' :: c)) =
      if 2 ^ uintBits ≤ decimalValue a then ([], some (rangeError a))
      else if 2 ^ uintBits ≤ decimalValue b then ([decimalValue a], some (rangeError b))
      else if 2 ^ uintBits ≤ decimalValue c then
        ([decimalValue a, decimalValue b], some (rangeError c))
      else ([decimalValue a, decimalValue b, decimalValue c], none) := by
  have hdot : ∀ (x : List Char), ∀ d ∈ ('.' :: x).head?, isDigit d = false := by
    intro x d hd
    simp only [List.head?_cons, Option.mem_def, Option.some.injEq] at hd
    subst hd
    exact isDigit_dot
  have hnil : ∀ d ∈ ([] : List Char).head?, isDigit d = false := by simp
  have hc2 := sscanf_verb [] c [] hc hnil
  rw [List.append_nil] at hc2
  have h1 : ('.' : Char) ≠ '%' := by decide
  have hend : ∀ x, Sscanf [] x = ([], none) := fun x => by rw [Sscanf]
  show Sscanf ['%', 'd', '.', '%', 'd', '.', '%', 'd'] _ = _
  rw [sscanf_verb _ a _ ha (hdot _)]
  rw [sscanf_lit _ h1, sscanf_verb _ b _ hb (hdot _), sscanf_lit _ h1, hc2, hend]
  split_ifs <;> rfl

/-! ## Decimal rendering -/

theorem digit_facts : ∀ d : Fin 10,
    isDigit (Char.ofNat (48 + d.val)) = true ∧
    (Char.ofNat (48 + d.val)).toNat - 48 = d.val ∧
    Char.ofNat (48 + d.val) = Nat.digitChar d.val ∧
    (Char.ofNat (48 + d.val) = '0' → d.val = 0) := by
  decide

theorem fmtIntegerLoop_eq (fuel : Nat) : ∀ (u : Nat) (buf : List Char), u ≤ fuel →
    fmtIntegerLoop fuel u buf = fmtUint u ++ buf := by
  induction fuel using Nat.strong_induction_on with
  | _ fuel ih =>
    intro u buf hu
    cases fuel with
    | zero =>
      obtain rfl : u = 0 := by omega
      rfl
    | succ fuel =>
      by_cases h10 : u ≥ 10
      · obtain ⟨k, rfl⟩ : ∃ k, u = k + 1 := ⟨u - 1, by omega⟩
        have hk : (k + 1) / 10 ≤ k := by omega
        simp only [fmtUint, fmtIntegerLoop, h10, if_true]
        rw [ih fuel (by omega) _ _ (by omega), ih k (by omega) _ _ hk]
        simp
      · cases u with
        | zero => simp [fmtUint, fmtIntegerLoop]
        | succ k => simp [fmtUint, fmtIntegerLoop, h10]

/-- The recursive reading of `%d`: the rendering of `u / 10` followed by the
last digit. -/
theorem fmtUint_eq (u : Nat) :
    fmtUint u =
      if u ≥ 10 then fmtUint (u / 10) ++ [Char.ofNat (48 + u % 10)]
      else [Char.ofNat (48 + u)] := by
  cases u with
  | zero => rfl
  | succ k =>
    have hk : (k + 1) / 10 ≤ k := by omega
    have e : 48 + (k + 1) - (k + 1) / 10 * 10 = 48 + (k + 1) % 10 := by omega
    show fmtIntegerLoop (k + 1) (k + 1) [] = _
    simp only [fmtIntegerLoop]
    split_ifs with h
    · rw [fmtIntegerLoop_eq k _ _ hk, e]
    · rfl

theorem fmtUint_isDigits (u : Nat) : IsDigits (fmtUint u) := by
  induction u using Nat.strong_induction_on with
  | _ u ih =>
    rw [fmtUint_eq]
    split_ifs with h
    · have h1 := ih (u / 10) (by omega)
      have h2 := (digit_facts ⟨u % 10, by omega⟩).1
      refine ⟨by simp, ?_⟩
      intro c hc
      simp only [List.mem_append, List.mem_singleton] at hc
      rcases hc with hc | rfl
      · exact h1.2 c hc
      · exact h2
    · have h2 := (digit_facts ⟨u, by omega⟩).1
      refine ⟨by simp, ?_⟩
      intro c hc
      simp only [List.mem_singleton] at hc
      subst hc
      exact h2

theorem decimalValue_append_singleton (w : List Char) (c : Char) :
    decimalValue (w ++ [c]) = decimalValue w * 10 + (c.toNat - 48) := by
  simp [decimalValue, List.foldl_append]

/-- Reading back what `%d` printed gives the number. -/
theorem decimalValue_fmtUint (u : Nat) : decimalValue (fmtUint u) = u := by
  induction u using Nat.strong_induction_on with
  | _ u ih =>
    rw [fmtUint_eq]
    split_ifs with h
    · have h2 := (digit_facts ⟨u % 10, by omega⟩).2.1
      simp only at h2
      rw [decimalValue_append_singleton, ih (u / 10) (by omega), h2]
      omega
    · have h2 := (digit_facts ⟨u, by omega⟩).2.1
      simp only at h2
      simp only [decimalValue, List.foldl_cons, List.foldl_nil, Nat.zero_mul, Nat.zero_add, h2]

/-- A positive number is printed without a leading `0`. -/
theorem fmtUint_head_ne_zero (u : Nat) (hu : u ≠ 0) : (fmtUint u).head? ≠ some '0' := by
  induction u using Nat.strong_induction_on with
  | _ u ih =>
    rw [fmtUint_eq]
    split_ifs with h
    · have h1 := ih (u / 10) (by omega) (by omega)
      have hne := (fmtUint_isDigits (u / 10)).1
      cases hf : fmtUint (u / 10) with
      | nil => exact absurd hf hne
      | cons x xs =>
        rw [hf] at h1
        simpa using h1
    · have h2 := (digit_facts ⟨u, by omega⟩).2.2.2
      simp only at h2
      simp only [List.head?_cons, ne_eq, Option.some.injEq]
      intro h0
      exact hu (h2 h0)

theorem toDigitsCore_eq_loop (fuel : Nat) : ∀ (u : Nat) (buf : List Char), u ≤ fuel →
    Nat.toDigitsCore 10 (fuel + 1) u buf = fmtIntegerLoop fuel u buf := by
  induction fuel with
  | zero =>
    intro u buf hu
    obtain rfl : u = 0 := by omega
    rfl
  | succ fuel ih =>
    intro u buf hu
    rw [Nat.toDigitsCore, fmtIntegerLoop]
    have e : 48 + u - u / 10 * 10 = 48 + u % 10 := by omega
    by_cases h10 : u ≥ 10
    · have hq : u / 10 ≠ 0 := by omega
      have h2 := (digit_facts ⟨u % 10, by omega⟩).2.2.1
      simp only at h2
      simp only [hq, if_false, h10, if_true, e, h2]
      exact ih _ _ (by omega)
    · have hq : u / 10 = 0 := by omega
      have hm : u % 10 = u := by omega
      have h2 := (digit_facts ⟨u, by omega⟩).2.2.1
      simp only at h2
      simp only [hq, if_true, h10, if_false, hm, h2]

/-- The verb `%d` prints the decimal numeral of its operand. -/
theorem fmtUint_eq_repr (u : Nat) : String.mk (fmtUint u) = toString u := by
  show String.mk (fmtUint u) = String.mk (Nat.toDigits 10 u)
  rw [Nat.toDigits, toDigitsCore_eq_loop u u [] (le_refl u)]
  rfl

/-- The value read from a digit string is the number its digits spell in base
ten, most significant digit first. -/
theorem decimalValue_eq_ofDigits (w : List Char) :
    decimalValue w = Nat.ofDigits 10 ((w.map fun c => c.toNat - 48).reverse) := by
  induction w using List.reverseRecOn with
  | nil => rfl
  | append_singleton w c ih =>
    rw [decimalValue_append_singleton, ih]
    simp only [List.map_append, List.map_cons, List.map_nil, List.reverse_append,
      List.reverse_cons, List.reverse_nil, List.nil_append, List.singleton_append,
      Nat.ofDigits_cons]
    omega

/-! ## Parsing -/

theorem length_le_utf8ByteSize (l : List Char) : l.length ≤ (String.mk l).utf8ByteSize := by
  show l.length ≤ String.utf8ByteSize.go l
  induction l with
  | nil => simp [String.utf8ByteSize.go]
  | cons c l ih =>
    have := Char.utf8Size_pos c
    simp only [String.utf8ByteSize.go, List.length_cons]
    omega

theorem isDigits_length_pos {a : List Char} (ha : IsDigits a) : 0 < a.length :=
  List.length_pos.mpr ha.1

/-- The parser on a string of the pre-1.0 shape. -/
theorem parse_pre (a b c : List Char) (ha : IsDigits a) (hb : IsDigits b) (hc : IsDigits c) :
    ParseKafkaVersion (String.mk ('0' :: '.' :: (a ++ '.' :: (b ++ '.' :: c)))) =
      if 2 ^ uintBits ≤ decimalValue a then (DefaultVersion, some (rangeError a))
      else if 2 ^ uintBits ≤ decimalValue b then (DefaultVersion, some (rangeError b))
      else if 2 ^ uintBits ≤ decimalValue c then (DefaultVersion, some (rangeError c))
      else (newKafkaVersion 0 (decimalValue a) (decimalValue b) (decimalValue c), none) := by
  have hlen := length_le_utf8ByteSize ('0' :: '.' :: (a ++ '.' :: (b ++ '.' :: c)))
  simp only [List.length_cons, List.length_append] at hlen
  have la := isDigits_length_pos ha
  have hsz : ¬ (String.mk ('0' :: '.' :: (a ++ '.' :: (b ++ '.' :: c)))).utf8ByteSize < 5 := by
    omega
  have hm : validPreKafka1Version.MatchString
      (String.mk ('0' :: '.' :: (a ++ '.' :: (b ++ '.' :: c)))) = true :=
    (matchString_iff _ _).mpr ((matches_pre_iff _).mpr ⟨a, b, c, ha, hb, hc, rfl⟩)
  simp only [ParseKafkaVersion, hsz, if_false, List.head?_cons, if_true, scanKafkaVersion, hm,
    Bool.not_true, Bool.false_eq_true, sscanf_pre a b c ha hb hc]
  split_ifs <;> rfl

/-- The parser on a string of the post-1.0 shape that does not start with `0`. -/
theorem parse_post (a b c : List Char) (ha : IsDigits a) (hb : IsDigits b) (hc : IsDigits c)
    (h0 : a.head? ≠ some '0') :
    ParseKafkaVersion (String.mk (a ++ '.' :: (b ++ '.' :: c))) =
      if 2 ^ uintBits ≤ decimalValue a then (DefaultVersion, some (rangeError a))
      else if 2 ^ uintBits ≤ decimalValue b then (DefaultVersion, some (rangeError b))
      else if 2 ^ uintBits ≤ decimalValue c then (DefaultVersion, some (rangeError c))
      else (newKafkaVersion (decimalValue a) (decimalValue b) (decimalValue c) 0, none) := by
  have hlen := length_le_utf8ByteSize (a ++ '.' :: (b ++ '.' :: c))
  simp only [List.length_cons, List.length_append] at hlen
  have la := isDigits_length_pos ha
  have lb := isDigits_length_pos hb
  have lc := isDigits_length_pos hc
  have hsz : ¬ (String.mk (a ++ '.' :: (b ++ '.' :: c))).utf8ByteSize < 5 := by omega
  have hm : validPostKafka1Version.MatchString (String.mk (a ++ '.' :: (b ++ '.' :: c))) = true :=
    (matchString_iff _ _).mpr ((matches_post_iff _).mpr ⟨a, b, c, ha, hb, hc, rfl⟩)
  have hh : (a ++ '.' :: (b ++ '.' :: c)).head? ≠ some '0' := by
    cases a with
    | nil => exact absurd rfl ha.1
    | cons x a => simpa using h0
  simp only [ParseKafkaVersion, hsz, if_false, hh, scanKafkaVersion, hm,
    Bool.not_true, Bool.false_eq_true, sscanf_post a b c ha hb hc]
  split_ifs <;> rfl

/-- The parser on a string that is too short or fails the pattern its first
character selects. -/
theorem parse_invalid (s : String)
    (h : s.utf8ByteSize < 5 ∨
      (s.data.head? = some '0' ∧ validPreKafka1Version.MatchString s = false) ∨
      (s.data.head? ≠ some '0' ∧ validPostKafka1Version.MatchString s = false)) :
    ParseKafkaVersion s = (DefaultVersion, some (invalidVersion s)) := by
  unfold ParseKafkaVersion
  by_cases hsz : s.utf8ByteSize < 5
  · simp only [hsz, if_true]
  · rcases h with h | ⟨h0, hm⟩ | ⟨h0, hm⟩
    · exact absurd h hsz
    · simp only [hsz, if_false, h0, if_true, scanKafkaVersion, hm, Bool.not_false]
    · simp only [hsz, if_false, h0, scanKafkaVersion, hm, Bool.not_false, if_true]

theorem pre_string_eq (a b c : String) :
    "0." ++ a ++ "." ++ b ++ "." ++ c =
      String.mk ('0' :: '.' :: (a.data ++ '.' :: (b.data ++ '.' :: c.data))) := by
  apply String.ext
  simp [String.data_append]

theorem post_string_eq (a b c : String) :
    a ++ "." ++ b ++ "." ++ c = String.mk (a.data ++ '.' :: (b.data ++ '.' :: c.data)) := by
  apply String.ext
  simp [String.data_append]

theorem pre_match_iff (s : String) :
    validPreKafka1Version.MatchString s = true ↔ ∃ a b c, PreKafka1Parts s a b c := by
  rw [matchString_iff, matches_pre_iff]
  constructor
  · rintro ⟨a, b, c, ha, hb, hc, h⟩
    refine ⟨String.mk a, String.mk b, String.mk c, ha, hb, hc, ?_⟩
    rw [pre_string_eq]
    exact String.ext h
  · rintro ⟨a, b, c, ha, hb, hc, h⟩
    refine ⟨a.data, b.data, c.data, ha, hb, hc, ?_⟩
    rw [h, pre_string_eq]

theorem post_match_iff (s : String) :
    validPostKafka1Version.MatchString s = true ↔ ∃ a b c, PostKafka1Parts s a b c := by
  rw [matchString_iff, matches_post_iff]
  constructor
  · rintro ⟨a, b, c, ha, hb, hc, h⟩
    refine ⟨String.mk a, String.mk b, String.mk c, ha, hb, hc, ?_⟩
    rw [post_string_eq]
    exact String.ext h
  · rintro ⟨a, b, c, ha, hb, hc, h⟩
    refine ⟨a.data, b.data, c.data, ha, hb, hc, ?_⟩
    rw [h, post_string_eq]

/-- The parser on a string of the pre-1.0 form: the first component that does
not fit in a `uint` gives the range error, otherwise the version is returned. -/
theorem parse_pre_parts (s a b c : String) (h : PreKafka1Parts s a b c) :
    ParseKafkaVersion s =
      if ¬ FitsUint a then (DefaultVersion, some (rangeError a.data))
      else if ¬ FitsUint b then (DefaultVersion, some (rangeError b.data))
      else if ¬ FitsUint c then (DefaultVersion, some (rangeError c.data))
      else (newKafkaVersion 0 (decimal a) (decimal b) (decimal c), none) := by
  obtain ⟨da, db, dc, rfl⟩ := h
  rw [pre_string_eq, parse_pre _ _ _ da db dc]
  simp only [FitsUint, decimal, not_lt]

/-- The parser on a string of the post-1.0 form that does not start with `0`. -/
theorem parse_post_parts (s a b c : String) (h : PostKafka1Parts s a b c)
    (h0 : s.data.head? ≠ some '0') :
    ParseKafkaVersion s =
      if ¬ FitsUint a then (DefaultVersion, some (rangeError a.data))
      else if ¬ FitsUint b then (DefaultVersion, some (rangeError b.data))
      else if ¬ FitsUint c then (DefaultVersion, some (rangeError c.data))
      else (newKafkaVersion (decimal a) (decimal b) (decimal c) 0, none) := by
  obtain ⟨da, db, dc, rfl⟩ := h
  rw [post_string_eq] at h0 ⊢
  have ha0 : a.data.head? ≠ some '0' := by
    cases hd : a.data with
    | nil => simp
    | cons x xs => rw [hd] at h0; simpa using h0
  rw [parse_post _ _ _ da db dc ha0]
  simp only [FitsUint, decimal, not_lt]

/-- A string that is too short or fails the pattern its first character selects
is refused with the message that quotes it. -/
theorem parse_not_form (s : String)
    (h : s.utf8ByteSize < 5 ∨
      (s.data.head? = some '0' ∧ ¬ ∃ a b c, PreKafka1Parts s a b c) ∨
      (s.data.head? ≠ some '0' ∧ ¬ ∃ a b c, PostKafka1Parts s a b c)) :
    ParseKafkaVersion s = (DefaultVersion, some ("invalid version `" ++ s ++ "`")) := by
  apply parse_invalid
  rcases h with h | ⟨h0, hm⟩ | ⟨h0, hm⟩
  · exact Or.inl h
  · rw [← pre_match_iff] at hm
    exact Or.inr (Or.inl ⟨h0, by simpa using hm⟩)
  · rw [← post_match_iff] at hm
    exact Or.inr (Or.inr ⟨h0, by simpa using hm⟩)

/-- Whenever the parser reports an error the version beside it is the default. -/
theorem parse_fst_of_error (s : String) (h : (ParseKafkaVersion s).2 ≠ none) :
    (ParseKafkaVersion s).1 = DefaultVersion := by
  unfold ParseKafkaVersion at h ⊢
  split_ifs at h ⊢
  · rfl
  · generalize scanKafkaVersion s validPreKafka1Version "0.%d.%d.%d" (0, 0, 0) = r at h ⊢
    obtain ⟨_ | e, m, n, p⟩ := r
    · exact absurd rfl h
    · rfl
  · generalize scanKafkaVersion s validPostKafka1Version "%d.%d.%d" (0, 0, 0) = r at h ⊢
    obtain ⟨_ | e, m, n, p⟩ := r
    · exact absurd rfl h
    · rfl

/-- A parse without error comes from one of the two forms with components in
range, and returns the version those components spell. -/
theorem parse_ok_cases (s : String) (h : (ParseKafkaVersion s).2 = none) :
    (∃ a b c, PreKafka1Parts s a b c ∧ FitsUint a ∧ FitsUint b ∧ FitsUint c ∧
      ParseKafkaVersion s = (newKafkaVersion 0 (decimal a) (decimal b) (decimal c), none)) ∨
    (∃ a b c, PostKafka1Parts s a b c ∧ s.data.head? ≠ some '0' ∧
      FitsUint a ∧ FitsUint b ∧ FitsUint c ∧
      ParseKafkaVersion s = (newKafkaVersion (decimal a) (decimal b) (decimal c) 0, none)) := by
  by_cases hsz : s.utf8ByteSize < 5
  · rw [parse_not_form s (Or.inl hsz)] at h
    cases h
  by_cases h0 : s.data.head? = some '0'
  · by_cases hm : ∃ a b c, PreKafka1Parts s a b c
    · obtain ⟨a, b, c, hp⟩ := hm
      have hr := parse_pre_parts s a b c hp
      by_cases ha : FitsUint a
      · by_cases hb : FitsUint b
        · by_cases hc : FitsUint c
          · simp only [ha, hb, hc, not_true_eq_false, if_false] at hr
            exact Or.inl ⟨a, b, c, hp, ha, hb, hc, hr⟩
          · simp only [ha, hb, hc, not_true_eq_false, not_false_eq_true, if_false, if_true] at hr
            rw [hr] at h; cases h
        · simp only [ha, hb, not_true_eq_false, not_false_eq_true, if_false, if_true] at hr
          rw [hr] at h; cases h
      · simp only [ha, not_false_eq_true, if_true] at hr
        rw [hr] at h; cases h
    · rw [parse_not_form s (Or.inr (Or.inl ⟨h0, hm⟩))] at h
      cases h
  · by_cases hm : ∃ a b c, PostKafka1Parts s a b c
    · obtain ⟨a, b, c, hp⟩ := hm
      have hr := parse_post_parts s a b c hp h0
      by_cases ha : FitsUint a
      · by_cases hb : FitsUint b
        · by_cases hc : FitsUint c
          · simp only [ha, hb, hc, not_true_eq_false, if_false] at hr
            exact Or.inr ⟨a, b, c, hp, h0, ha, hb, hc, hr⟩
          · simp only [ha, hb, hc, not_true_eq_false, not_false_eq_true, if_false, if_true] at hr
            rw [hr] at h; cases h
        · simp only [ha, hb, not_true_eq_false, not_false_eq_true, if_false, if_true] at hr
          rw [hr] at h; cases h
      · simp only [ha, not_false_eq_true, if_true] at hr
        rw [hr] at h; cases h
    · rw [parse_not_form s (Or.inr (Or.inr ⟨h0, hm⟩))] at h
      cases h

/-! ## The parsing claims -/

/-- C3, as stated, fails: a pre-1.0 string whose minor component is `2 ^ 64` is
refused with the range error of the scanner. -/
theorem parse_pre_overflow :
    PreKafka1Parts "0.18446744073709551616.0.0" "18446744073709551616" "0" "0" ∧
    ParseKafkaVersion "0.18446744073709551616.0.0" =
      (DefaultVersion,
        some "strconv.ParseUint: parsing \"18446744073709551616\": value out of range") := by
  decide

/-- C3 (amended): a string of the pre-1.0 form `0.<minor>.<patchFamily>.<patch>`
whose three components fit in a `uint` is parsed without error to the version
(0, minor, patchFamily, patch), each field the decimal value of its component. -/
theorem parse_pre_form (s a b c : String) (h : PreKafka1Parts s a b c)
    (ha : FitsUint a) (hb : FitsUint b) (hc : FitsUint c) :
    ParseKafkaVersion s = (newKafkaVersion 0 (decimal a) (decimal b) (decimal c), none) := by
  rw [parse_pre_parts s a b c h]
  simp only [ha, hb, hc, not_true_eq_false, if_false]

theorem parse_pre_form_witness :
    ParseKafkaVersion "0.11.0.3" = (newKafkaVersion 0 11 0 3, none) :=
  parse_pre_form "0.11.0.3" "11" "0" "3" (by decide) (by decide) (by decide) (by decide)

/-- C4, as stated, fails: a post-1.0 string whose last component is `2 ^ 64` is
refused with the range error of the scanner. -/
theorem parse_post_overflow :
    PostKafka1Parts "1.5.18446744073709551616" "1" "5" "18446744073709551616" ∧
    "1.5.18446744073709551616".data.head? ≠ some '0' ∧
    ParseKafkaVersion "1.5.18446744073709551616" =
      (DefaultVersion,
        some "strconv.ParseUint: parsing \"18446744073709551616\": value out of range") := by
  decide

/-- C4 (amended): a string of the post-1.0 form `<major>.<minor>.<patchFamily>`
whose first character is not `0` and whose three components fit in a `uint` is
parsed without error to (major, minor, patchFamily, 0): the patch cell is zero. -/
theorem parse_post_form (s a b c : String) (h : PostKafka1Parts s a b c)
    (h0 : s.data.head? ≠ some '0')
    (ha : FitsUint a) (hb : FitsUint b) (hc : FitsUint c) :
    ParseKafkaVersion s = (newKafkaVersion (decimal a) (decimal b) (decimal c) 0, none) ∧
    (ParseKafkaVersion s).1.patch = 0 := by
  rw [parse_post_parts s a b c h h0]
  simp only [ha, hb, hc, not_true_eq_false, if_false, newKafkaVersion, and_self]

theorem parse_post_form_witness :
    ParseKafkaVersion "2.8.1" = (newKafkaVersion 2 8 1 0, none) :=
  (parse_post_form "2.8.1" "2" "8" "1" (by decide) (by decide) (by decide) (by decide)
    (by decide)).1

/-- C5: a string shorter than 5 bytes, or one that is not of the form its first
character selects (pre-1.0 after a leading `0`, post-1.0 otherwise), is refused
with the error message "invalid version" followed by the string between
backquotes. -/
theorem parse_rejects (s : String)
    (h : s.utf8ByteSize < 5 ∨
      (s.data.head? = some '0' ∧ ¬ ∃ a b c, PreKafka1Parts s a b c) ∨
      (s.data.head? ≠ some '0' ∧ ¬ ∃ a b c, PostKafka1Parts s a b c)) :
    (ParseKafkaVersion s).2 = some ("invalid version `" ++ s ++ "`") := by
  rw [parse_not_form s h]

theorem parse_rejects_witness :
    (ParseKafkaVersion "1.2.3.4").2 = some "invalid version `1.2.3.4`" ∧
    (ParseKafkaVersion "0.9.0").2 = some "invalid version `0.9.0`" ∧
    (ParseKafkaVersion "not-a-version").2 = some "invalid version `not-a-version`" ∧
    (ParseKafkaVersion "1.0").2 = some "invalid version `1.0`" :=
  ⟨parse_rejects "1.2.3.4" (Or.inr (Or.inr ⟨by decide, by rw [← post_match_iff]; decide⟩)),
   parse_rejects "0.9.0" (Or.inr (Or.inl ⟨by decide, by rw [← pre_match_iff]; decide⟩)),
   parse_rejects "not-a-version"
     (Or.inr (Or.inr ⟨by decide, by rw [← post_match_iff]; decide⟩)),
   parse_rejects "1.0" (Or.inl (by decide))⟩

/-- C6: whenever `ParseKafkaVersion` returns an error, the version beside it is
`DefaultVersion`, the tuple (2,1,0,0). -/
theorem parse_error_returns_default (s : String) (h : (ParseKafkaVersion s).2 ≠ none) :
    (ParseKafkaVersion s).1 = DefaultVersion ∧
    (ParseKafkaVersion s).1 = { major := 2, minor := 1, veryMinor := 0, patch := 0 } := by
  rw [parse_fst_of_error s h]
  exact ⟨rfl, rfl⟩

theorem parse_error_returns_default_witness :
    (ParseKafkaVersion "not-a-version").1 = DefaultVersion ∧
    (ParseKafkaVersion "not-a-version").1 =
      { major := 2, minor := 1, veryMinor := 0, patch := 0 } :=
  parse_error_returns_default "not-a-version" (by decide)

/-- C7, as stated, fails: `0.9.0` is 5 bytes long and matches the post-1.0
pattern, and `0.18446744073709551616.0.0` matches the pre-1.0 pattern, yet both
are refused; the message of the second does not quote the string. -/
theorem parse_error_on_matching_string :
    (5 ≤ "0.9.0".utf8ByteSize ∧ validPostKafka1Version.MatchString "0.9.0" = true ∧
      (ParseKafkaVersion "0.9.0").2 = some "invalid version `0.9.0`") ∧
    (5 ≤ "0.18446744073709551616.0.0".utf8ByteSize ∧
      validPreKafka1Version.MatchString "0.18446744073709551616.0.0" = true ∧
      (ParseKafkaVersion "0.18446744073709551616.0.0").2 =
        some "strconv.ParseUint: parsing \"18446744073709551616\": value out of range") := by
  decide

/-- C7 (amended): `ParseKafkaVersion` returns an error only when the string is
shorter than 5 bytes, or is not of the form its first character selects, or has
a component that does not fit in a `uint`; in the first two cases the message
quotes the string; and every string of the selected form whose components fit
in a `uint` is parsed without error. -/
theorem parse_error_only_when (s : String) :
    ((ParseKafkaVersion s).2 ≠ none →
      s.utf8ByteSize < 5 ∨
      (s.data.head? = some '0' ∧ ¬ ∃ a b c, PreKafka1Parts s a b c) ∨
      (s.data.head? ≠ some '0' ∧ ¬ ∃ a b c, PostKafka1Parts s a b c) ∨
      ∃ a b c, (PreKafka1Parts s a b c ∨ PostKafka1Parts s a b c) ∧
        (¬ FitsUint a ∨ ¬ FitsUint b ∨ ¬ FitsUint c)) ∧
    (s.utf8ByteSize < 5 ∨
      (s.data.head? = some '0' ∧ ¬ ∃ a b c, PreKafka1Parts s a b c) ∨
      (s.data.head? ≠ some '0' ∧ ¬ ∃ a b c, PostKafka1Parts s a b c) →
      (ParseKafkaVersion s).2 = some ("invalid version `" ++ s ++ "`")) ∧
    ((∃ a b c, PreKafka1Parts s a b c ∧ FitsUint a ∧ FitsUint b ∧ FitsUint c) ∨
      (∃ a b c, PostKafka1Parts s a b c ∧ s.data.head? ≠ some '0' ∧
        FitsUint a ∧ FitsUint b ∧ FitsUint c) →
      (ParseKafkaVersion s).2 = none) := by
  refine ⟨?_, ?_, ?_⟩
  · intro herr
    by_cases hsz : s.utf8ByteSize < 5
    · exact Or.inl hsz
    by_cases h0 : s.data.head? = some '0'
    · by_cases hm : ∃ a b c, PreKafka1Parts s a b c
      · obtain ⟨a, b, c, hp⟩ := hm
        by_cases hf : FitsUint a ∧ FitsUint b ∧ FitsUint c
        · rw [parse_pre_parts s a b c hp] at herr
          simp only [hf.1, hf.2.1, hf.2.2, not_true_eq_false, if_false, ne_eq] at herr
        · exact Or.inr (Or.inr (Or.inr ⟨a, b, c, Or.inl hp, by tauto⟩))
      · exact Or.inr (Or.inl ⟨h0, hm⟩)
    · by_cases hm : ∃ a b c, PostKafka1Parts s a b c
      · obtain ⟨a, b, c, hp⟩ := hm
        by_cases hf : FitsUint a ∧ FitsUint b ∧ FitsUint c
        · rw [parse_post_parts s a b c hp h0] at herr
          simp only [hf.1, hf.2.1, hf.2.2, not_true_eq_false, if_false, ne_eq] at herr
        · exact Or.inr (Or.inr (Or.inr ⟨a, b, c, Or.inr hp, by tauto⟩))
      · exact Or.inr (Or.inr (Or.inl ⟨h0, hm⟩))
  · intro h
    rw [parse_not_form s h]
  · rintro (⟨a, b, c, hp, ha, hb, hc⟩ | ⟨a, b, c, hp, h0, ha, hb, hc⟩)
    · rw [parse_pre_parts s a b c hp]
      simp only [ha, hb, hc, not_true_eq_false, if_false]
    · rw [parse_post_parts s a b c hp h0]
      simp only [ha, hb, hc, not_true_eq_false, if_false]

theorem parse_error_only_when_witness :
    (ParseKafkaVersion "2.8.1").2 = none ∧
    (ParseKafkaVersion "0.9.0").2 = some "invalid version `0.9.0`" :=
  ⟨(parse_error_only_when "2.8.1").2.2
     (Or.inr ⟨"2", "8", "1", by decide, by decide, by decide, by decide, by decide⟩),
   (parse_error_only_when "0.9.0").2.1
     (Or.inr (Or.inl ⟨by decide, by rw [← pre_match_iff]; decide⟩))⟩

/-! ## Formatting -/

theorem sprintf_pre (a b c : Nat) :
    Sprintf "0.%d.%d.%d" [a, b, c] =
      String.mk ('0' :: '.' :: (fmtUint a ++ '.' :: (fmtUint b ++ '.' :: fmtUint c))) := by
  show String.mk (sprintfLoop ['0', '.', '%', 'd', '.', '%', 'd', '.', '%', 'd'] _) = _
  simp [sprintfLoop]

theorem sprintf_post (a b c : Nat) :
    Sprintf "%d.%d.%d" [a, b, c] =
      String.mk (fmtUint a ++ '.' :: (fmtUint b ++ '.' :: fmtUint c)) := by
  show String.mk (sprintfLoop ['%', 'd', '.', '%', 'd', '.', '%', 'd'] _) = _
  simp [sprintfLoop]

/-- C8: a version with major 0 is rendered as `0.<minor>.<patchFamily>.<patch>`,
any other as `<major>.<minor>.<patchFamily>` without the patch cell, every
number as its decimal numeral. -/
theorem string_renders (v : KafkaVersion) :
    (v.String =
      if v.major = 0 then
        "0." ++ toString v.minor ++ "." ++ toString v.veryMinor ++ "." ++ toString v.patch
      else toString v.major ++ "." ++ toString v.minor ++ "." ++ toString v.veryMinor) ∧
    (newKafkaVersion 2 8 1 0).String = "2.8.1" ∧
    (newKafkaVersion 0 11 0 3).String = "0.11.0.3" := by
  refine ⟨?_, by decide, by decide⟩
  unfold KafkaVersion.String
  split_ifs with h
  · rw [sprintf_pre, pre_string_eq, ← fmtUint_eq_repr, ← fmtUint_eq_repr, ← fmtUint_eq_repr]
  · rw [sprintf_post, post_string_eq, ← fmtUint_eq_repr, ← fmtUint_eq_repr, ← fmtUint_eq_repr]

/-! ## Round trip -/

theorem parse_string (v : KafkaVersion) (hr : v.InRange) (h : v.major = 0 ∨ v.patch = 0) :
    ParseKafkaVersion v.String = (v, none) := by
  obtain ⟨M, m, f, p⟩ := v
  simp only [KafkaVersion.InRange, KafkaVersion.version, List.mem_cons, List.mem_singleton,
    List.not_mem_nil, or_false, forall_eq_or_imp, forall_eq] at hr
  obtain ⟨hM, hm, hf, hp⟩ := hr
  simp only at h
  unfold KafkaVersion.String
  by_cases h0 : M = 0
  · subst h0
    simp only [if_true]
    rw [sprintf_pre, parse_pre _ _ _ (fmtUint_isDigits m) (fmtUint_isDigits f)
      (fmtUint_isDigits p)]
    simp only [decimalValue_fmtUint, not_le.mpr hm, not_le.mpr hf, not_le.mpr hp, if_false,
      newKafkaVersion]
  · have hp0 : p = 0 := by
      rcases h with h | h
      · exact absurd h h0
      · exact h
    subst hp0
    simp only [h0, if_false]
    rw [sprintf_post, parse_post _ _ _ (fmtUint_isDigits M) (fmtUint_isDigits m)
      (fmtUint_isDigits f) (fmtUint_head_ne_zero M h0)]
    simp only [decimalValue_fmtUint, not_le.mpr hM, not_le.mpr hm, not_le.mpr hf, if_false,
      newKafkaVersion]

theorem parse_result_shape (s : String) :
    (ParseKafkaVersion s).1.InRange ∧
      ((ParseKafkaVersion s).1.major = 0 ∨ (ParseKafkaVersion s).1.patch = 0) := by
  by_cases herr : (ParseKafkaVersion s).2 = none
  · rcases parse_ok_cases s herr with ⟨a, b, c, _, ha, hb, hc, hr⟩ | ⟨a, b, c, _, _, ha, hb, hc, hr⟩
    · rw [hr]
      refine ⟨?_, Or.inl rfl⟩
      simp only [KafkaVersion.InRange, KafkaVersion.version, newKafkaVersion, List.mem_cons,
        List.mem_singleton, List.not_mem_nil, or_false, forall_eq_or_imp, forall_eq]
      exact ⟨by decide, ha, hb, hc⟩
    · rw [hr]
      refine ⟨?_, Or.inr rfl⟩
      simp only [KafkaVersion.InRange, KafkaVersion.version, newKafkaVersion, List.mem_cons,
        List.mem_singleton, List.not_mem_nil, or_false, forall_eq_or_imp, forall_eq]
      exact ⟨ha, hb, hc, by decide⟩
  · rw [parse_fst_of_error s herr]
    decide

/-- C9: formatting then parsing gives the version back, for every version with
major 0 or patch 0 (its cells being `uint` values); every version the parser
returns and every entry of `SupportedVersions` is such a version. -/
theorem format_parse_roundtrip :
    (∀ v : KafkaVersion, v.InRange → (v.major = 0 ∨ v.patch = 0) →
      ParseKafkaVersion v.String = (v, none)) ∧
    (∀ s : String, (ParseKafkaVersion s).1.InRange ∧
      ((ParseKafkaVersion s).1.major = 0 ∨ (ParseKafkaVersion s).1.patch = 0)) ∧
    (∀ v ∈ SupportedVersions, v.InRange ∧ (v.major = 0 ∨ v.patch = 0)) :=
  ⟨parse_string, parse_result_shape, by decide⟩

theorem format_parse_roundtrip_witness :
    ParseKafkaVersion V0_11_0_2.String = (V0_11_0_2, none) ∧
    ParseKafkaVersion V3_6_1_0.String = (V3_6_1_0, none) :=
  ⟨format_parse_roundtrip.1 V0_11_0_2 (by decide) (by decide),
   format_parse_roundtrip.1 V3_6_1_0 (by decide) (by decide)⟩

/-- C19: `IsAtLeast` is transitive. -/
theorem isAtLeast_transitive (a b c : KafkaVersion) (hab : a.IsAtLeast b = true)
    (hbc : b.IsAtLeast c = true) : a.IsAtLeast c = true :=
  isAtLeast_trans hab hbc

theorem isAtLeast_transitive_witness :
    V3_6_0_0.IsAtLeast V2_1_0_0 = true ∧ V2_1_0_0.IsAtLeast V0_10_2_0 = true ∧
    V3_6_0_0.IsAtLeast V0_10_2_0 = true :=
  ⟨by decide, by decide, isAtLeast_transitive V3_6_0_0 V2_1_0_0 V0_10_2_0 (by decide) (by decide)⟩

/-! ## Canonical input -/

theorem digit_char_facts (c : Char) (hc : isDigit c = true) :
    Char.ofNat (48 + (c.toNat - 48)) = c ∧ c.toNat - 48 < 10 ∧ (c ≠ '0' → 0 < c.toNat - 48) := by
  simp only [isDigit, Bool.and_eq_true, decide_eq_true_eq] at hc
  have e : 48 + (c.toNat - 48) = c.toNat := by omega
  refine ⟨by rw [e, Char.ofNat_toNat], by omega, ?_⟩
  intro hne
  by_contra h0
  have h48 : c.toNat = 48 := by omega
  apply hne
  rw [← Char.ofNat_toNat c, h48]

theorem le_foldl_decimal (rest : List Char) (n : Nat) :
    n ≤ rest.foldl (fun n c => n * 10 + (c.toNat - 48)) n := by
  induction rest generalizing n with
  | nil => exact le_refl n
  | cons x rest ih =>
    rw [List.foldl_cons]
    exact le_trans (by omega) (ih _)

/-- A digit string that does not start with `0` denotes a positive number. -/
theorem decimalValue_pos (w : List Char) (hw : IsDigits w) (h0 : w.head? ≠ some '0') :
    0 < decimalValue w := by
  obtain ⟨hne, hd⟩ := hw
  cases w with
  | nil => exact absurd rfl hne
  | cons x rest =>
    have hx := digit_char_facts x (hd x (List.mem_cons_self _ _))
    have hx0 : x ≠ '0' := by simpa using h0
    have h1 := hx.2.2 hx0
    have h2 := le_foldl_decimal rest (0 * 10 + (x.toNat - 48))
    simp only [decimalValue, List.foldl_cons]
    omega

/-- Printing the value of a digit string without superfluous leading zeros
gives the string back. -/
theorem fmtUint_decimalValue (w : List Char) (hw : IsDigits w)
    (hc : w = ['0'] ∨ w.head? ≠ some '0') : fmtUint (decimalValue w) = w := by
  induction w using List.reverseRecOn with
  | nil => exact absurd rfl hw.1
  | append_singleton u c ih =>
    have hcd : isDigit c = true := hw.2 c (by simp)
    obtain ⟨hchr, hlt, _⟩ := digit_char_facts c hcd
    rw [decimalValue_append_singleton]
    cases u with
    | nil =>
      have hv : decimalValue [] = 0 := rfl
      rw [hv, fmtUint_eq]
      have hlt2 : ¬ (c.toNat - 48 ≥ 10) := by omega
      simp only [Nat.zero_mul, Nat.zero_add, hlt2, if_false, hchr, List.nil_append]
    | cons x u =>
      have hu : IsDigits (x :: u) :=
        ⟨by simp, fun d hd => hw.2 d (List.mem_append_left _ hd)⟩
      have hx0 : (x :: u).head? ≠ some '0' := by
        rcases hc with hc | hc
        · have hl := congrArg List.length hc
          simp at hl
        · simpa using hc
      have hpos := decimalValue_pos (x :: u) hu hx0
      have hih := ih hu (Or.inr hx0)
      rw [fmtUint_eq]
      have hge : decimalValue (x :: u) * 10 + (c.toNat - 48) ≥ 10 := by omega
      have hdiv : (decimalValue (x :: u) * 10 + (c.toNat - 48)) / 10 = decimalValue (x :: u) := by
        omega
      have hmod : (decimalValue (x :: u) * 10 + (c.toNat - 48)) % 10 = c.toNat - 48 := by
        omega
      simp only [hge, if_true, hdiv, hmod, hih, hchr]

theorem canonical_data {a : String} (ha : Canonical a) :
    a.data = ['0'] ∨ a.data.head? ≠ some '0' := by
  rcases ha with h | h
  · left; rw [h]
  · exact Or.inr h

theorem string_of_pre (a b c : String) (da : IsDigits a.data) (db : IsDigits b.data)
    (dc : IsDigits c.data) (ha : Canonical a) (hb : Canonical b) (hc : Canonical c) :
    (newKafkaVersion 0 (decimal a) (decimal b) (decimal c)).String =
      "0." ++ a ++ "." ++ b ++ "." ++ c := by
  simp only [KafkaVersion.String, newKafkaVersion, if_true, decimal]
  rw [sprintf_pre, pre_string_eq, fmtUint_decimalValue _ da (canonical_data ha),
    fmtUint_decimalValue _ db (canonical_data hb), fmtUint_decimalValue _ dc (canonical_data hc)]

theorem string_of_post (a b c : String) (da : IsDigits a.data) (db : IsDigits b.data)
    (dc : IsDigits c.data) (ha : a.data.head? ≠ some '0') (hb : Canonical b)
    (hc : Canonical c) :
    (newKafkaVersion (decimal a) (decimal b) (decimal c) 0).String =
      a ++ "." ++ b ++ "." ++ c := by
  have hpos : decimal a ≠ 0 := Nat.pos_iff_ne_zero.mp (decimalValue_pos _ da ha)
  simp only [KafkaVersion.String, newKafkaVersion, hpos, if_false]
  simp only [decimal]
  rw [sprintf_post, post_string_eq, fmtUint_decimalValue _ da (Or.inr ha),
    fmtUint_decimalValue _ db (canonical_data hb), fmtUint_decimalValue _ dc (canonical_data hc)]

theorem head_of_post (s a b c : String) (h : PostKafka1Parts s a b c)
    (h0 : s.data.head? ≠ some '0') : a.data.head? ≠ some '0' := by
  obtain ⟨da, _, _, rfl⟩ := h
  rw [post_string_eq] at h0
  cases hd : a.data with
  | nil => simp
  | cons x xs => rw [hd] at h0; simpa using h0

/-- C20: an accepted string whose components carry no superfluous leading zeros
is reproduced by formatting the parsed version, and for every accepted string
parsing the formatted version gives the parsed version again. -/
theorem parse_then_format :
    (∀ s a b c : String,
      (PreKafka1Parts s a b c ∨ (PostKafka1Parts s a b c ∧ s.data.head? ≠ some '0')) →
      (ParseKafkaVersion s).2 = none → Canonical a → Canonical b → Canonical c →
      (ParseKafkaVersion s).1.String = s) ∧
    (∀ s : String, (ParseKafkaVersion s).2 = none →
      ParseKafkaVersion (ParseKafkaVersion s).1.String = ((ParseKafkaVersion s).1, none)) := by
  constructor
  · intro s a b c hform hok ha hb hc
    rcases hform with hp | ⟨hp, h0⟩
    · have hr := parse_pre_parts s a b c hp
      by_cases fa : FitsUint a
      · by_cases fb : FitsUint b
        · by_cases fc : FitsUint c
          · simp only [fa, fb, fc, not_true_eq_false, if_false] at hr
            rw [hr]
            simp only
            rw [string_of_pre a b c hp.1 hp.2.1 hp.2.2.1 ha hb hc]
            exact hp.2.2.2.symm
          · simp only [fa, fb, fc, not_true_eq_false, not_false_eq_true, if_false, if_true] at hr
            rw [hr] at hok; cases hok
        · simp only [fa, fb, not_true_eq_false, not_false_eq_true, if_false, if_true] at hr
          rw [hr] at hok; cases hok
      · simp only [fa, not_false_eq_true, if_true] at hr
        rw [hr] at hok; cases hok
    · have hr := parse_post_parts s a b c hp h0
      have ha0 := head_of_post s a b c hp h0
      by_cases fa : FitsUint a
      · by_cases fb : FitsUint b
        · by_cases fc : FitsUint c
          · simp only [fa, fb, fc, not_true_eq_false, if_false] at hr
            rw [hr]
            simp only
            rw [string_of_post a b c hp.1 hp.2.1 hp.2.2.1 ha0 hb hc]
            exact hp.2.2.2.symm
          · simp only [fa, fb, fc, not_true_eq_false, not_false_eq_true, if_false, if_true] at hr
            rw [hr] at hok; cases hok
        · simp only [fa, fb, not_true_eq_false, not_false_eq_true, if_false, if_true] at hr
          rw [hr] at hok; cases hok
      · simp only [fa, not_false_eq_true, if_true] at hr
        rw [hr] at hok; cases hok
  · intro s _
    have hs := parse_result_shape s
    exact parse_string _ hs.1 hs.2

theorem parse_then_format_witness :
    (ParseKafkaVersion "0.11.0.3").1.String = "0.11.0.3" ∧
    (ParseKafkaVersion "2.8.1").1.String = "2.8.1" ∧
    ParseKafkaVersion (ParseKafkaVersion "2.008.01").1.String =
      ((ParseKafkaVersion "2.008.01").1, none) :=
  ⟨parse_then_format.1 "0.11.0.3" "11" "0" "3" (Or.inl (by decide)) (by decide) (by decide)
     (by decide) (by decide),
   parse_then_format.1 "2.8.1" "2" "8" "1" (Or.inr ⟨by decide, by decide⟩) (by decide)
     (by decide) (by decide) (by decide),
   parse_then_format.2 "2.008.01" (by decide)⟩

/-! ## Retry backoff -/

/-- The base delay the constructor settles on. -/
theorem backoff_at_zero (backoff maxBackoff retries maxRetries : Int) (applyJitter : Int → Int)
    (h : retries ≤ 0) :
    NewExponentialBackoff backoff maxBackoff retries maxRetries applyJitter =
      min (if backoff > 0 then backoff else 100 * Millisecond)
        (if maxBackoff > 0 then maxBackoff else 1000 * Millisecond) := by
  simp only [NewExponentialBackoff, h, if_true, defaultRetryBackoff, defaultRetryMaxBackoff]
  split_ifs <;> omega

/-- The delay never exceeds the maximum the constructor settles on, whatever
the jitter step returns. -/
theorem backoff_le_max (backoff maxBackoff retries maxRetries : Int)
    (applyJitter : Int → Int) :
    NewExponentialBackoff backoff maxBackoff retries maxRetries applyJitter ≤
      (if maxBackoff > 0 then maxBackoff else 1000 * Millisecond) := by
  simp only [NewExponentialBackoff, defaultRetryBackoff, defaultRetryMaxBackoff]
  split_ifs <;> omega

/-- Without overflow the integer handed to the jitter step is
`backoff * 2 ^ (retries - 1)`. -/
theorem calculated_exact (b : Int) (k : Nat) (hb : 0 ≤ b) (h : b * 2 ^ k < 2 ^ 63)
    (hk : k < 63) : wrapInt64 (b * shiftOne (k : Int)) = b * 2 ^ k := by
  have h2 : (2 : Int) ^ k < 2 ^ 63 := by
    exact_mod_cast Nat.pow_lt_pow_right (by decide) hk
  have h2pos : (0 : Int) < 2 ^ k := by positivity
  have hs : shiftOne (k : Int) = 2 ^ k := by
    have hk64 : (k : Int) < 64 := by omega
    simp only [shiftOne, hk64, if_true, Int.toNat_ofNat, wrapInt64]
    omega
  have hnn : 0 ≤ b * 2 ^ k := mul_nonneg hb (le_of_lt h2pos)
  rw [hs]
  simp only [wrapInt64]
  omega

/-- After at least one retry and without overflow of the product, the delay is
the smaller of the jittered `base * 2 ^ (retries - 1)` and the maximum, for the
effective base and maximum; here `retries = k + 1`. -/
theorem backoff_eq_min_jitter (backoff maxBackoff maxRetries : Int) (k : Nat)
    (applyJitter : Int → Int)
    (h : min (if backoff > 0 then backoff else 100 * Millisecond)
        (if maxBackoff > 0 then maxBackoff else 1000 * Millisecond) * 2 ^ k < 2 ^ 63) :
    NewExponentialBackoff backoff maxBackoff ((k : Int) + 1) maxRetries applyJitter =
      min (applyJitter (min (if backoff > 0 then backoff else 100 * Millisecond)
          (if maxBackoff > 0 then maxBackoff else 1000 * Millisecond) * 2 ^ k))
        (if maxBackoff > 0 then maxBackoff else 1000 * Millisecond) := by
  have hB : (if (if backoff ≤ 0 then defaultRetryBackoff else backoff) >
        (if maxBackoff ≤ 0 then defaultRetryMaxBackoff else maxBackoff)
      then (if maxBackoff ≤ 0 then defaultRetryMaxBackoff else maxBackoff)
      else (if backoff ≤ 0 then defaultRetryBackoff else backoff)) =
      min (if backoff > 0 then backoff else 100 * Millisecond)
        (if maxBackoff > 0 then maxBackoff else 1000 * Millisecond) := by
    simp only [defaultRetryBackoff, defaultRetryMaxBackoff]
    split_ifs <;> omega
  have hM : (if maxBackoff ≤ 0 then defaultRetryMaxBackoff else maxBackoff) =
      (if maxBackoff > 0 then maxBackoff else 1000 * Millisecond) := by
    simp only [defaultRetryMaxBackoff]
    split_ifs <;> omega
  have hpos : 1 ≤ min (if backoff > 0 then backoff else 100 * Millisecond)
      (if maxBackoff > 0 then maxBackoff else 1000 * Millisecond) := by
    have : (1 : Int) ≤ 100 * Millisecond := by decide
    have : (1 : Int) ≤ 1000 * Millisecond := by decide
    split_ifs <;> omega
  have h2pos : (0 : Int) < 2 ^ k := by positivity
  have hk : k < 63 := by
    by_contra hk
    have h63 : (2 : Int) ^ 63 ≤ 2 ^ k := by
      exact_mod_cast Nat.pow_le_pow_right (by decide) (not_lt.mp hk)
    have hle : (2 : Int) ^ k ≤
        min (if backoff > 0 then backoff else 100 * Millisecond)
          (if maxBackoff > 0 then maxBackoff else 1000 * Millisecond) * 2 ^ k :=
      le_mul_of_one_le_left (le_of_lt h2pos) hpos
    omega
  have hr : ¬ ((k : Int) + 1 ≤ 0) := by omega
  have hsub : (k : Int) + 1 - 1 = (k : Int) := by omega
  simp only [NewExponentialBackoff, hr, if_false, hsub]
  rw [hB, hM, calculated_exact _ k (by omega) h hk]

/-- C11 fails on the code: with the default policy (100ms, 1000ms) and
`retries = 38` the product `backoff * 2 ^ 37` overflows `int64` and wraps to
`-4702848726509551616`; the delay is that negative number when the jitter step
leaves it unchanged (jitter factor 1), and is negative for every jitter step
that keeps the sign. -/
theorem backoff_negative_after_overflow :
    NewExponentialBackoff (100 * Millisecond) (1000 * Millisecond) 38 5 id =
      -4702848726509551616 ∧
    ∀ (maxRetries : Int) (applyJitter : Int → Int),
      applyJitter (-4702848726509551616) < 0 →
      NewExponentialBackoff (100 * Millisecond) (1000 * Millisecond) 38 maxRetries
        applyJitter < 0 := by
  refine ⟨by decide, ?_⟩
  intro maxRetries applyJitter hneg
  have hc : wrapInt64 (100 * Millisecond * shiftOne (38 - 1)) = -4702848726509551616 := by
    decide
  have h1 : ¬ ((100 : Int) * Millisecond ≤ 0) := by decide
  have h2 : ¬ ((1000 : Int) * Millisecond ≤ 0) := by decide
  have h3 : ¬ ((100 : Int) * Millisecond > 1000 * Millisecond) := by decide
  have h4 : ¬ ((38 : Int) ≤ 0) := by decide
  simp only [NewExponentialBackoff, h1, h2, h3, h4, if_false, hc]
  exact lt_of_le_of_lt (min_le_left _ _) hneg

/-- C12: for `retries ≤ 0` the returned function gives the effective base
`min(b', m')`, where `b'` is `backoff` if positive and 100ms otherwise and `m'`
is `maxBackoff` if positive and 1000ms otherwise, whatever the jitter step. -/
theorem backoff_no_retries (backoff maxBackoff retries maxRetries : Int)
    (applyJitter : Int → Int) (h : retries ≤ 0) :
    NewExponentialBackoff backoff maxBackoff retries maxRetries applyJitter =
      min (if backoff > 0 then backoff else 100 * Millisecond)
        (if maxBackoff > 0 then maxBackoff else 1000 * Millisecond) :=
  backoff_at_zero backoff maxBackoff retries maxRetries applyJitter h

theorem backoff_no_retries_witness :
    NewExponentialBackoff (100 * Millisecond) (1000 * Millisecond) 0 3 (fun c => c * 6 / 5) =
      100 * Millisecond :=
  (backoff_no_retries (100 * Millisecond) (1000 * Millisecond) 0 3 (fun c => c * 6 / 5)
    (by decide)).trans (by decide)

/-- C15: a `backoff ≤ 0` is replaced by 100ms and a `maxBackoff ≤ 0` by 1000ms:
the returned function agrees with that of the defaulted arguments for every
`retries`, `maxRetries` and jitter step; so (-5ms, -5ms) behaves as
(100ms, 1000ms). -/
theorem backoff_defaults :
    (∀ backoff maxBackoff retries maxRetries : Int, ∀ applyJitter : Int → Int,
      backoff ≤ 0 →
      NewExponentialBackoff backoff maxBackoff retries maxRetries applyJitter =
        NewExponentialBackoff (100 * Millisecond) maxBackoff retries maxRetries applyJitter) ∧
    (∀ backoff maxBackoff retries maxRetries : Int, ∀ applyJitter : Int → Int,
      maxBackoff ≤ 0 →
      NewExponentialBackoff backoff maxBackoff retries maxRetries applyJitter =
        NewExponentialBackoff backoff (1000 * Millisecond) retries maxRetries applyJitter) ∧
    (∀ retries maxRetries : Int, ∀ applyJitter : Int → Int,
      NewExponentialBackoff (-5 * Millisecond) (-5 * Millisecond) retries maxRetries
          applyJitter =
        NewExponentialBackoff (100 * Millisecond) (1000 * Millisecond) retries maxRetries
          applyJitter) := by
  have h1 : ¬ ((100 : Int) * Millisecond ≤ 0) := by decide
  have h2 : ¬ ((1000 : Int) * Millisecond ≤ 0) := by decide
  have h3 : (-5 : Int) * Millisecond ≤ 0 := by decide
  refine ⟨?_, ?_, ?_⟩
  · intro backoff maxBackoff retries maxRetries applyJitter hb
    simp only [NewExponentialBackoff, hb, if_true, h1, if_false, defaultRetryBackoff]
  · intro backoff maxBackoff retries maxRetries applyJitter hm
    simp only [NewExponentialBackoff, hm, if_true, h2, if_false, defaultRetryMaxBackoff]
  · intro retries maxRetries applyJitter
    simp only [NewExponentialBackoff, h1, h2, h3, if_true, if_false, defaultRetryBackoff,
      defaultRetryMaxBackoff]

theorem backoff_defaults_witness :
    NewExponentialBackoff 0 (-7) 3 9 (fun c => c * 4 / 5) =
      NewExponentialBackoff (100 * Millisecond) (-7) 3 9 (fun c => c * 4 / 5) ∧
    NewExponentialBackoff 250 0 3 9 (fun c => c * 4 / 5) =
      NewExponentialBackoff 250 (1000 * Millisecond) 3 9 (fun c => c * 4 / 5) :=
  ⟨backoff_defaults.1 0 (-7) 3 9 (fun c => c * 4 / 5) (by decide),
   backoff_defaults.2.1 250 0 3 9 (fun c => c * 4 / 5) (by decide)⟩

/-- C16: when `backoff > maxBackoff > 0` the returned function agrees with that
of `(maxBackoff, maxBackoff)` for every `retries`, `maxRetries` and jitter
step, and returns `maxBackoff` at `retries = 0`; so (2000ms, 1000ms) behaves as
(1000ms, 1000ms). -/
theorem backoff_clamped :
    (∀ backoff maxBackoff : Int, 0 < maxBackoff → maxBackoff < backoff →
      (∀ retries maxRetries : Int, ∀ applyJitter : Int → Int,
        NewExponentialBackoff backoff maxBackoff retries maxRetries applyJitter =
          NewExponentialBackoff maxBackoff maxBackoff retries maxRetries applyJitter) ∧
      ∀ maxRetries : Int, ∀ applyJitter : Int → Int,
        NewExponentialBackoff backoff maxBackoff 0 maxRetries applyJitter = maxBackoff) ∧
    (∀ retries maxRetries : Int, ∀ applyJitter : Int → Int,
      NewExponentialBackoff (2000 * Millisecond) (1000 * Millisecond) retries maxRetries
          applyJitter =
        NewExponentialBackoff (1000 * Millisecond) (1000 * Millisecond) retries maxRetries
          applyJitter) ∧
    (∀ maxRetries : Int, ∀ applyJitter : Int → Int,
      NewExponentialBackoff (2000 * Millisecond) (1000 * Millisecond) 0 maxRetries
        applyJitter = 1000 * Millisecond) := by
  have key : ∀ backoff maxBackoff : Int, 0 < maxBackoff → maxBackoff < backoff →
      (∀ retries maxRetries : Int, ∀ applyJitter : Int → Int,
        NewExponentialBackoff backoff maxBackoff retries maxRetries applyJitter =
          NewExponentialBackoff maxBackoff maxBackoff retries maxRetries applyJitter) ∧
      ∀ maxRetries : Int, ∀ applyJitter : Int → Int,
        NewExponentialBackoff backoff maxBackoff 0 maxRetries applyJitter = maxBackoff := by
    intro backoff maxBackoff hm hlt
    have hb : ¬ backoff ≤ 0 := by omega
    have hm0 : ¬ maxBackoff ≤ 0 := by omega
    have hgt : backoff > maxBackoff := hlt
    have hself : ¬ maxBackoff > maxBackoff := lt_irrefl _
    constructor
    · intro retries maxRetries applyJitter
      simp only [NewExponentialBackoff, hb, hm0, hgt, hself, if_true, if_false]
    · intro maxRetries applyJitter
      simp only [NewExponentialBackoff, hb, hm0, hgt, if_true, if_false, le_refl]
  exact ⟨key, (key _ _ (by decide) (by decide)).1, (key _ _ (by decide) (by decide)).2⟩

theorem backoff_clamped_witness :
    NewExponentialBackoff (2000 * Millisecond) (1000 * Millisecond) 0 4 (fun c => c * 6 / 5) =
      1000 * Millisecond ∧
    NewExponentialBackoff 900 300 2 4 (fun c => c * 6 / 5) =
      NewExponentialBackoff 300 300 2 4 (fun c => c * 6 / 5) :=
  ⟨(backoff_clamped.1 (2000 * Millisecond) (1000 * Millisecond) (by decide) (by decide)).2 4
     (fun c => c * 6 / 5),
   (backoff_clamped.1 900 300 (by decide) (by decide)).1 2 4 (fun c => c * 6 / 5)⟩

/-- C17: the argument `maxRetries` does not influence the delay. -/
theorem backoff_ignores_maxRetries (backoff maxBackoff retries m1 m2 : Int)
    (applyJitter : Int → Int) :
    NewExponentialBackoff backoff maxBackoff retries m1 applyJitter =
      NewExponentialBackoff backoff maxBackoff retries m2 applyJitter := by
  simp only [NewExponentialBackoff]

/-! ## Encoders -/

/-- C18: both encoders return a `nil` error, `Length()` is the length of the
bytes `Encode()` returns, and these are the bytes of the string, respectively
the byte slice itself. -/
theorem encoders_contract (s : StringEncoder) (b : ByteEncoder) :
    ((StringEncoder.Encode s).2 = none ∧
      StringEncoder.Length s = (StringEncoder.Encode s).1.size ∧
      (StringEncoder.Encode s).1 = String.toUTF8 s) ∧
    ((ByteEncoder.Encode b).2 = none ∧
      ByteEncoder.Length b = (ByteEncoder.Encode b).1.size ∧
      (ByteEncoder.Encode b).1 = b) := by
  refine ⟨⟨rfl, ?_, rfl⟩, ⟨rfl, rfl, rfl⟩⟩
  simp only [StringEncoder.Length, StringEncoder.Encode, String.size_toUTF8]

end Sarama
